import Mathlib

/-!
Verification development for the notablehumans ingestion pipeline
(`notablehumans/data_collection`: `tasks.py`, `tasks_helper.py`, `models.py`).

The Python code is shallowly embedded: strings are Lean `String`s manipulated
through list-of-character helpers that model the Python `str` methods used by
the source (`split`, `strip`, `lower`, `startswith`, `endswith`, substring
containment, `int(...)` conversion); timestamps are integers (seconds);
Python exceptions that the source can raise and catch are modeled with
`Except`/`Option` values; the relational store is a record of lists of rows.
-/

namespace NotableHumans

/-! ## Python string primitives -/

/-- ASCII whitespace recognized by Python `str.strip` (the model restricts the
Unicode whitespace set to its ASCII part). -/
def pyWS (c : Char) : Bool :=
  c == ' ' || c == '\t' || c == '\n' || c == '\r' || c == '\x0b' || c == '\x0c'

/-- Model of Python `str.lstrip()`. -/
def pyLstripL (l : List Char) : List Char := l.dropWhile pyWS

/-- Model of Python `str.rstrip()`. -/
def pyRstripL (l : List Char) : List Char := (l.reverse.dropWhile pyWS).reverse

/-- Model of Python `str.strip()`. -/
def pyStripL (l : List Char) : List Char := pyRstripL (pyLstripL l)

/-- Model of Python `str.split(sep)` for a one-character separator:
left-to-right, keeping empty fields. -/
def pySplit1 (a : Char) : List Char → List (List Char)
  | [] => [[]]
  | c :: rest =>
    if c = a then [] :: pySplit1 a rest
    else
      match pySplit1 a rest with
      | [] => [[c]]
      | grp :: grps => (c :: grp) :: grps

/-- Model of Python `str.split(sep)` for a two-character separator (the
source splits on `"@@"` and `"||"`): left-to-right, non-overlapping. -/
def pySplit2 (a b : Char) : List Char → List (List Char)
  | [] => [[]]
  | [c] => [[c]]
  | c :: d :: rest =>
    if c = a ∧ d = b then [] :: pySplit2 a b rest
    else
      match pySplit2 a b (d :: rest) with
      | [] => [[c]]
      | grp :: grps => (c :: grp) :: grps

/-- `str.split` on `String`s for a one-character separator, returning
`String` fields. -/
def pySplitS (sep : Char) (s : String) : List String := (pySplit1 sep s.data).map String.mk

/-- `str.split` on `String`s for a two-character separator. -/
def pySplitS2 (a b : Char) (s : String) : List String := (pySplit2 a b s.data).map String.mk

/-- Numeric value of a list of ASCII digits (most significant first). -/
def natOfDigits (l : List Char) : Nat := l.foldl (fun n c => 10 * n + (c.toNat - 48)) 0

/-- Value of a non-empty all-digit character list, `none` otherwise. -/
def digitsVal? (l : List Char) : Option Nat :=
  if l ≠ [] ∧ l.all Char.isDigit then some (natOfDigits l) else none

/-- Model of Python `int(s)`: optional surrounding whitespace, optional sign,
then ASCII digits; `none` models the `ValueError` raised otherwise. -/
def pyInt? (s : String) : Option Int :=
  match pyStripL s.data with
  | [] => none
  | c :: r =>
    if c = '-' then (digitsVal? r).map (fun n => -(n : Int))
    else if c = '+' then (digitsVal? r).map (fun n => (n : Int))
    else (digitsVal? (c :: r)).map (fun n => (n : Int))

/-- Model of Python `s.startswith(pre)`. -/
def pyStartsWith (s pre : String) : Bool := pre.data.isPrefixOf s.data

/-- `str.strip()` on `String`s. -/
def pyStripS (s : String) : String := String.mk (pyStripL s.data)

/-- Model of `s.split(sep)[-1]` for a one-character separator. -/
def pyLastSeg (sep : Char) (s : String) : String :=
  String.mk ((pySplit1 sep s.data).getLastD [])

/-- Model of `s.split(sep)[0]` (also `s.split(sep, 1)[0]`) for a
one-character separator. -/
def pyHeadSeg (sep : Char) (s : String) : String :=
  String.mk ((pySplit1 sep s.data).headI)

/-! ## Python exceptions visible to this pipeline -/

/-- The Python exceptions the embedded code can raise: `IndexError` from
`date_str[0]` on an empty string, `ValueError` from tuple unpacking or
`int`/`datetime` conversion, `KeyError` from a `dict[...]` access. -/
inductive PyErr where
  | indexError
  | valueError
  | keyError
deriving DecidableEq

/-! ## Calendar dates (`datetime.datetime(year, month, day)`) -/

structure PDate where
  year : Nat
  month : Nat
  day : Nat
deriving DecidableEq

/-- Proleptic-Gregorian leap year, as used by `datetime`. -/
def isLeapYear (y : Int) : Bool := y % 4 == 0 && (y % 100 != 0 || y % 400 == 0)

def daysInMonth (y m : Int) : Int :=
  if m = 2 then (if isLeapYear y then 29 else 28)
  else if m = 4 ∨ m = 6 ∨ m = 9 ∨ m = 11 then 30
  else 31

/-- The `(year, month, day)` triples accepted by `datetime.datetime`
(`MINYEAR = 1`, `MAXYEAR = 9999`); anything else raises `ValueError`. -/
def validYMD (y m d : Int) : Bool :=
  decide (1 ≤ y ∧ y ≤ 9999 ∧ 1 ≤ m ∧ m ≤ 12 ∧ 1 ≤ d ∧ d ≤ daysInMonth y m)

/-! ## `parse_date` (models.py `NotableHuman.parse_date`, identical copy in
tasks_helper.py `parse_date`) -/

/-- The body of the `for date_str in date_candidates` loop of `parse_date` for
one candidate: split off a `T...` time suffix, treat a leading `-` as a BC
marker, then `year, month, day = map(int, date_str.split("-"))` and build the
date.  `.ok none` models the `ValueError` branch (`continue`); `.error`
models the uncaught `IndexError` of `date_str[0]` when the part before the
first `T` is empty. -/
def tryParseYMD : List (List Char) → Bool → Except PyErr (Option (PDate × Bool))
  | [y, m, d], isBc =>
    match pyInt? (String.mk y), pyInt? (String.mk m), pyInt? (String.mk d) with
    | some yi, some mi, some di =>
      if validYMD yi mi di then .ok (some (⟨yi.toNat, mi.toNat, di.toNat⟩, isBc))
      else .ok none
    | _, _, _ => .ok none
  | _, _ => .ok none

def candParse : List Char → Except PyErr (Option (PDate × Bool))
  | [] => .error .indexError
  | ch :: rest =>
    tryParseYMD (pySplit1 '-' (if ch = '-' then rest else ch :: rest)) (decide (ch = '-'))

def tryParseCandidate (c : String) : Except PyErr (Option (PDate × Bool)) :=
  candParse (pySplit1 'T' c.data).headI

/-- `set.add` of the candidate set, modeled as a duplicate-free list in
insertion order (Python set iteration order is implementation defined; the
theorems below are stated so that they do not depend on this order). -/
def addCandidate (acc : List String) (v : String) : List String :=
  if v ∈ acc then acc else acc ++ [v]

/-- Collect the pipe-separated candidates of one raw field: skip values that
start with `"http"`, strip the rest, add to the candidate set. -/
def addCandidates (acc : List String) (s : Option String) : List String :=
  match s with
  | none => acc
  | some s =>
    if s ≠ "" then
      (pySplitS '|' s).foldl
        (fun acc v => if ¬ pyStartsWith v "http" then addCandidate acc (pyStripS v) else acc)
        acc
    else acc

/-- The candidate set built by `parse_date` from `date_values` and
`date_statements`. -/
def candidatesOf (dv ds : Option String) : List String :=
  addCandidates (addCandidates [] dv) ds

/-- The candidate loop of `parse_date`: first successful parse wins,
`ValueError` candidates are skipped, an `IndexError` propagates. -/
def parseDateGo : List String → Except PyErr (Option PDate × Bool)
  | [] => .ok (none, false)
  | c :: rest =>
    match tryParseCandidate c with
    | .error e => .error e
    | .ok (some (d, b)) => .ok (some d, b)
    | .ok none => parseDateGo rest

/-- `parse_date(date_values, date_statements)`.  The `if not date_candidates`
early return coincides with the empty-list case of the loop. -/
def parse_date (dv ds : Option String) : Except PyErr (Option PDate × Bool) :=
  parseDateGo (candidatesOf dv ds)

/-! ### Claim-shaped predicate: "has the form YYYY-MM-DD" -/

/-- Strip an optional leading `-` BC marker from the date part. -/
def ymdCoreAux : List Char → Bool × List Char
  | [] => (false, [])
  | ch :: rest => if ch = '-' then (true, rest) else (false, ch :: rest)

/-- Strip an optional `T...` time suffix and an optional leading `-` BC
marker, as the claim describes them. -/
def ymdCore (c : String) : Bool × List Char :=
  ymdCoreAux (c.data.takeWhile (fun x => x ≠ 'T'))

def isYMDFormAux : List (List Char) → Bool
  | [y, m, d] =>
    (y.length == 4) && (m.length == 2) && (d.length == 2) &&
    y.all Char.isDigit && m.all Char.isDigit && d.all Char.isDigit &&
    validYMD (natOfDigits y) (natOfDigits m) (natOfDigits d)
  | _ => false

/-- The claim's "has the form YYYY-MM-DD": after dropping the time suffix and
the optional BC `-`, exactly three dash-separated all-digit fields of widths
4, 2 and 2 forming a calendar date `datetime` accepts. -/
def isYMDForm (c : String) : Bool :=
  isYMDFormAux (pySplit1 '-' (ymdCore c).2)

def ymdValueAux : List (List Char) → Bool → PDate × Bool
  | [y, m, d], bc => (⟨natOfDigits y, natOfDigits m, natOfDigits d⟩, bc)
  | _, bc => (⟨0, 0, 0⟩, bc)

/-- The calendar date and BC flag a well-formed candidate denotes. -/
def ymdValueOf (c : String) : PDate × Bool :=
  ymdValueAux (pySplit1 '-' (ymdCore c).2) (ymdCore c).1

/-! ### Supporting lemmas for `parse_date` -/

theorem pyWS_eq_false_of_isDigit {c : Char} (h : c.isDigit = true) : pyWS c = false := by
  by_contra hws
  have hws' : pyWS c = true := by revert hws; cases pyWS c <;> simp
  simp only [pyWS, Bool.or_eq_true, beq_iff_eq] at hws'
  rcases hws' with ((((h1 | h1) | h1) | h1) | h1) | h1 <;> subst h1 <;> simp_all [Char.isDigit]

theorem pyStripL_digits {l : List Char} (h : l.all Char.isDigit = true) : pyStripL l = l := by
  have hws : ∀ c ∈ l, pyWS c = false := by
    intro c hc
    exact pyWS_eq_false_of_isDigit (by simpa using (List.all_eq_true.mp h c hc))
  have hdrop : ∀ m : List Char, (∀ c ∈ m, pyWS c = false) → m.dropWhile pyWS = m := by
    intro m hm
    cases m with
    | nil => rfl
    | cons a b => simp [List.dropWhile, hm a (by simp)]
  have h1 : pyLstripL l = l := hdrop l hws
  have h2 : pyRstripL l = l := by
    unfold pyRstripL
    rw [hdrop l.reverse (fun c hc => hws c (by simpa using hc))]
    simp
  unfold pyStripL
  rw [h1, h2]

theorem pyInt?_digits {l : List Char} (hne : l ≠ []) (h : l.all Char.isDigit = true) :
    pyInt? (String.mk l) = some ((natOfDigits l : Int)) := by
  have hdata : (String.mk l).data = l := rfl
  unfold pyInt?
  rw [hdata, pyStripL_digits h]
  cases l with
  | nil => exact absurd rfl hne
  | cons c r =>
    have hc : c.isDigit = true := by simpa using (List.all_eq_true.mp h c (by simp))
    have hcm : c ≠ '-' := by rintro rfl; simp [Char.isDigit] at hc
    have hcp : c ≠ '+' := by rintro rfl; simp [Char.isDigit] at hc
    simp [hcm, hcp, digitsVal?, h]

theorem pySplit1_ne_nil (a : Char) (l : List Char) : pySplit1 a l ≠ [] := by
  cases l with
  | nil => simp [pySplit1]
  | cons c rest =>
    rw [pySplit1]
    split
    · simp
    · split <;> simp

theorem headI_pySplit_single (a : Char) (l : List Char) :
    (pySplit1 a l).headI = l.takeWhile (fun x => x ≠ a) := by
  induction l with
  | nil => simp [pySplit1]
  | cons c rest ih =>
    by_cases hca : c = a
    · subst hca
      simp [pySplit1, List.takeWhile]
    · rw [pySplit1]
      have hdec : (decide (c ≠ a)) = true := by simp [hca]
      simp only [hca, if_false, List.takeWhile, hdec]
      cases hsp : pySplit1 a rest with
      | nil => exact absurd hsp (pySplit1_ne_nil a rest)
      | cons grp grps =>
        rw [← ih]
        simp [hsp]

theorem tryParseYMD_no_error (parts : List (List Char)) (b : Bool) (e : PyErr) :
    tryParseYMD parts b ≠ .error e := by
  match parts with
  | [] => simp [tryParseYMD]
  | [y] => simp [tryParseYMD]
  | [y, m] => simp [tryParseYMD]
  | [y, m, d] =>
    rw [tryParseYMD]
    cases pyInt? (String.mk y) <;> cases pyInt? (String.mk m) <;>
      cases pyInt? (String.mk d) <;> simp <;> split <;> simp
  | y :: m :: d :: x :: t => simp [tryParseYMD]

theorem tryParseCandidate_no_error {c : String}
    (hne : (pySplit1 'T' c.data).headI ≠ []) (e : PyErr) :
    tryParseCandidate c ≠ .error e := by
  unfold tryParseCandidate
  cases hh : (pySplit1 'T' c.data).headI with
  | nil => exact absurd hh hne
  | cons ch rest =>
    rw [candParse]
    exact tryParseYMD_no_error _ _ e

theorem tryParseYMD_of_form {parts : List (List Char)} {b : Bool}
    (h : isYMDFormAux parts = true) :
    tryParseYMD parts b = .ok (some (ymdValueAux parts b)) := by
  match parts with
  | [] => simp [isYMDFormAux] at h
  | [y] => simp [isYMDFormAux] at h
  | [y, m] => simp [isYMDFormAux] at h
  | [y, m, d] =>
    rw [isYMDFormAux] at h
    simp only [Bool.and_eq_true, beq_iff_eq] at h
    obtain ⟨⟨⟨⟨⟨⟨hy4, hm2⟩, hd2⟩, hyd⟩, hmd⟩, hdd⟩, hval⟩ := h
    have hyne : y ≠ [] := by intro hx; rw [hx] at hy4; simp at hy4
    have hmne : m ≠ [] := by intro hx; rw [hx] at hm2; simp at hm2
    have hdne : d ≠ [] := by intro hx; rw [hx] at hd2; simp at hd2
    rw [tryParseYMD, pyInt?_digits hyne hyd, pyInt?_digits hmne hmd, pyInt?_digits hdne hdd]
    simp only [hval, if_true, ymdValueAux]
    simp
  | y :: m :: d :: x :: t => simp [isYMDFormAux] at h

theorem tryParse_of_isYMDForm {c : String} (h : isYMDForm c = true) :
    tryParseCandidate c = .ok (some (ymdValueOf c)) := by
  unfold isYMDForm at h
  unfold ymdValueOf
  unfold tryParseCandidate
  rw [headI_pySplit_single]
  cases ht : c.data.takeWhile (fun x => x ≠ 'T') with
  | nil =>
    exfalso
    have hcore : (ymdCore c).2 = [] := by unfold ymdCore; rw [ht]; rfl
    rw [hcore] at h
    simp [pySplit1, isYMDFormAux] at h
  | cons ch rest =>
    have hcore : (ymdCore c).2 = (if ch = '-' then rest else ch :: rest) := by
      unfold ymdCore; rw [ht]
      by_cases hch : ch = '-' <;> simp [ymdCoreAux, hch]
    have hbc : (ymdCore c).1 = decide (ch = '-') := by
      unfold ymdCore; rw [ht]
      by_cases hch : ch = '-' <;> simp [ymdCoreAux, hch]
    rw [hcore] at h
    rw [candParse, hbc, hcore]
    exact tryParseYMD_of_form h

theorem parseDateGo_all_none {l : List String}
    (h : ∀ c ∈ l, tryParseCandidate c = .ok none) :
    parseDateGo l = .ok (none, false) := by
  induction l with
  | nil => rfl
  | cons c rest ih =>
    unfold parseDateGo
    rw [h c (by simp)]
    exact ih (fun x hx => h x (by simp [hx]))

theorem parseDateGo_success {l : List String}
    (hne : ∀ c ∈ l, ∀ e, tryParseCandidate c ≠ .error e)
    (hex : ∃ c ∈ l, ∃ d b, tryParseCandidate c = .ok (some (d, b))) :
    ∃ c ∈ l, ∃ d b, tryParseCandidate c = .ok (some (d, b)) ∧
      parseDateGo l = .ok (some d, b) := by
  induction l with
  | nil => simp at hex
  | cons c rest ih =>
    cases htp : tryParseCandidate c with
    | error e => exact absurd htp (hne c (by simp) e)
    | ok v =>
      cases v with
      | some db =>
        refine ⟨c, by simp, db.1, db.2, ?_, ?_⟩
        · rw [htp]
        · unfold parseDateGo
          rw [htp]
      | none =>
        have hex' : ∃ x ∈ rest, ∃ d b, tryParseCandidate x = .ok (some (d, b)) := by
          obtain ⟨x, hx, d, b, hxp⟩ := hex
          rcases List.mem_cons.mp hx with rfl | hx'
          · rw [htp] at hxp; simp at hxp
          · exact ⟨x, hx', d, b, hxp⟩
        obtain ⟨x, hx, d, b, hxp, hgo⟩ :=
          ih (fun x hx e => hne x (by simp [hx]) e) hex'
        refine ⟨x, by simp [hx], d, b, hxp, ?_⟩
        unfold parseDateGo
        rw [htp, hgo]

/-! ### Claim C4 -/

/-- **C4 counterexample.**  The claim asserts that when every candidate is
URL-shaped or unparseable `parse_date` returns "absent" `(None, False)`.  On
input `date_values = "|"`, `date_statements = None`, the surviving candidate
set is the single empty string, which is unparseable, yet `parse_date` raises
an uncaught `IndexError` (`date_str[0]` on an empty string) instead of
returning `(None, False)`. -/
theorem C4_counterexample :
    parse_date (some "|") none = .error .indexError := by rfl

/-- **C4 (amended).**  For every pair of raw inputs, provided the part of each
surviving candidate before its first `T` is non-empty (an empty part raises an
uncaught `IndexError`): every candidate of the form `YYYY-MM-DD` (optionally
`-`-prefixed for BC, optionally with a discarded `T` time suffix) parses to
its calendar date with the correct BC flag; if any candidate is of that form,
`parse_date` returns the correctly parsed date and BC flag of one of the
candidates; and if every candidate is unparseable, `parse_date` returns
`(None, False)`. -/
theorem C4_parse_date_amended (dv ds : Option String)
    (hne : ∀ c ∈ candidatesOf dv ds, (pySplit1 'T' c.data).headI ≠ []) :
    (∀ c ∈ candidatesOf dv ds, isYMDForm c = true →
        tryParseCandidate c = .ok (some (ymdValueOf c))) ∧
    ((∃ c ∈ candidatesOf dv ds, isYMDForm c = true) →
      ∃ c ∈ candidatesOf dv ds, ∃ d b, tryParseCandidate c = .ok (some (d, b)) ∧
        parse_date dv ds = .ok (some d, b)) ∧
    ((∀ c ∈ candidatesOf dv ds, tryParseCandidate c = .ok none) →
      parse_date dv ds = .ok (none, false)) := by
  refine ⟨fun c _ hc => tryParse_of_isYMDForm hc, ?_, ?_⟩
  · intro hex
    apply parseDateGo_success (fun c hc e => tryParseCandidate_no_error (hne c hc) e)
    obtain ⟨c, hc, hform⟩ := hex
    exact ⟨c, hc, (ymdValueOf c).1, (ymdValueOf c).2, by
      simpa using tryParse_of_isYMDForm hform⟩
  · intro hall
    exact parseDateGo_all_none hall

/-- Witness for C4 (amended): `dobValues = "1879-03-14T00:00:00Z"` parses to
1879-03-14, not BC. -/
theorem C4_parse_date_amended_witness :
    parse_date (some "1879-03-14T00:00:00Z") none = .ok (some ⟨1879, 3, 14⟩, false) := by
  have h := (C4_parse_date_amended (some "1879-03-14T00:00:00Z") none (by decide)).1
    "1879-03-14T00:00:00Z" (by decide) (by decide)
  have hc : candidatesOf (some "1879-03-14T00:00:00Z") none = ["1879-03-14T00:00:00Z"] := by
    decide
  unfold parse_date
  rw [hc]
  unfold parseDateGo
  rw [h]
  rfl

/-! ## `is_probably_human` (tasks.py lines 113-139, identical copy in
tasks_helper.py) -/

/-- Model of Python `str.lower()` (ASCII case folding). -/
def pyLowerS (s : String) : String := String.mk (s.data.map Char.toLower)

/-- Python substring containment `needle in hay`. -/
def pyInStr (needle hay : String) : Bool := decide (needle.data <:+: hay.data)

/-- The `non_human_keywords` list of the source, verbatim. -/
def non_human_keywords : List String :=
  ["Category:", "Template:", "Template talk:", "File:", "Talk:", "List of",
   "Portal:", "Wikipedia:"]

def digitChars : List Char := ['0', '1', '2', '3', '4', '5', '6', '7', '8', '9']

/-- `title.lstrip().startswith(tuple("0123456789"))`. -/
def startsWithDigit (s : String) : Bool :=
  match pyLstripL s.data with
  | [] => false
  | c :: _ => decide (c ∈ digitChars)

/-- `title.rstrip().endswith(tuple("0123456789"))`. -/
def endsWithDigit (s : String) : Bool :=
  match (pyRstripL s.data).getLast? with
  | none => false
  | some c => decide (c ∈ digitChars)

/-- `title.endswith(")")` (on the raw title). -/
def endsParen (s : String) : Bool :=
  match s.data.getLast? with
  | none => false
  | some c => decide (c = ')')

/-- `is_probably_human(title)`: reject digit-bounded titles not ending in
`)`, then reject titles containing a non-human keyword case-insensitively. -/
def is_probably_human (title : String) : Bool :=
  if (startsWithDigit title || endsWithDigit title) && !endsParen title then false
  else non_human_keywords.all (fun k => !pyInStr (pyLowerS k) (pyLowerS title))

/-- The claim's keyword list: the seven keywords named by the spec (the
source list additionally contains `"Template talk:"`). -/
def claim_keywords : List String :=
  ["Category:", "Template:", "File:", "Talk:", "Portal:", "Wikipedia:", "List of"]

/-- The claim's description of the filter, as a boolean function: False when a
claimed keyword occurs case-insensitively, False when digit-bounded unless
ending in `)`, otherwise True. -/
def is_probably_human_claim (title : String) : Bool :=
  !(claim_keywords.any (fun k => pyInStr (pyLowerS k) (pyLowerS title))) &&
  !((startsWithDigit title || endsWithDigit title) && !endsParen title)

/-- The extra source keyword `"Template talk:"` is subsumed by `"Talk:"`:
any title containing the former (case-insensitively) contains the latter. -/
theorem template_talk_subsumed {title : String}
    (h : pyInStr (pyLowerS "Template talk:") (pyLowerS title) = true) :
    pyInStr (pyLowerS "Talk:") (pyLowerS title) = true := by
  have h1 : (pyLowerS "Talk:").data <:+: (pyLowerS "Template talk:").data := by decide
  have h2 : (pyLowerS "Template talk:").data <:+: (pyLowerS title).data :=
    of_decide_eq_true h
  exact decide_eq_true (h1.trans h2)

/-- **C5.**  For every title string, `is_probably_human` returns `False`
exactly when the title contains one of the seven claimed keywords
case-insensitively or is digit-bounded (after stripping the respective side's
whitespace) without ending in a closing parenthesis, and `True` otherwise:
the source filter coincides with the claim's filter on every title. -/
theorem C5_is_probably_human (title : String) :
    is_probably_human title = is_probably_human_claim title := by
  unfold is_probably_human is_probably_human_claim
  cases hd : (startsWithDigit title || endsWithDigit title) && !endsParen title with
  | true => simp
  | false =>
    simp only [if_false, Bool.not_false, Bool.and_true, Bool.false_eq_true]
    apply Bool.eq_iff_iff.mpr
    simp only [non_human_keywords, claim_keywords, List.all_cons, List.all_nil,
      List.any_cons, List.any_nil, Bool.and_eq_true, Bool.or_eq_true,
      Bool.not_eq_true', Bool.not_eq_true, Bool.or_eq_false_iff, and_true]
    constructor
    · rintro ⟨h1, h2, h3, h4, h5, h6, h7, h8⟩
      exact ⟨h1, h2, h4, h5, h7, h8, h6⟩
    · rintro ⟨h1, h2, h4, h5, h7, h8, h6⟩
      refine ⟨h1, h2, ?_, h4, h5, h6, h7, h8⟩
      cases htt : pyInStr (pyLowerS "Template talk:") (pyLowerS title) with
      | false => rfl
      | true => exact absurd (template_talk_subsumed htt) (by rw [h5]; simp)

/-! ## Batch scheduler: `get_human_details_in_batches` (tasks.py 142-169) -/

/-- JSON escaping of one character, as `json.dumps` performs it for the
characters relevant here (quote, backslash, common control characters). -/
def jsonEscapeChar (c : Char) : List Char :=
  if c = '"' then ['\\', '"']
  else if c = '\\' then ['\\', '\\']
  else if c = '\n' then ['\\', 'n']
  else if c = '\t' then ['\\', 't']
  else if c = '\r' then ['\\', 'r']
  else [c]

/-- `json.dumps` of a list of strings.  `sort_keys=True` sorts only the keys
of dicts; a list is serialized in its given order, which is the crux of claim
C6. -/
def pyJsonDumpsList (l : List String) : String :=
  "[" ++ String.intercalate ", "
    (l.map (fun s => "\"" ++ String.mk (s.data.map jsonEscapeChar).flatten ++ "\"")) ++ "]"

/-- `titles[i : i + n]` chunking (`n` is `BATCH_SIZE = 50`); the fuel is the
list length, which suffices for every positive `n`. -/
def chunkAux (n : Nat) : Nat → List String → List (List String)
  | 0, _ => []
  | _, [] => []
  | fuel + 1, c :: rest => (c :: rest.take (n - 1)) :: chunkAux n fuel (rest.drop (n - 1))

def chunkList (n : Nat) (l : List String) : List (List String) := chunkAux n l.length l

def BATCH_SIZE : Nat := 50

/-- The held keys of the shared Redis instance, restricted to one key
namespace. -/
structure LockState where
  held : List String
deriving DecidableEq

/-- `REDIS_CLIENT.set(key, value, ex=..., nx=True)`: set only if absent,
reporting whether the set happened.  TTL expiry is not modeled: all claims
concern behavior within one lock window. -/
def tryAcquire (key : String) (st : LockState) : Bool × LockState :=
  if key ∈ st.held then (false, st) else (true, ⟨key :: st.held⟩)

/-- The batch lock key `f"batch_task:{batch_hash}"`, where `batch_hash` is
the SHA-256 of `json.dumps(batch, sort_keys=True)`.  SHA-256 is modeled
injectively by its preimage string. -/
def batchLockKey (batch : List String) : String :=
  "batch_task:" ++ pyJsonDumpsList batch

/-- The per-chunk loop of `get_human_details_in_batches`: try each chunk's
lock; on failure skip the chunk, on success dispatch `get_human_details` for
it.  Returns the dispatched chunks in order. -/
def scheduleBatches : List (List String) → LockState → List (List String) × LockState
  | [], st => ([], st)
  | b :: rest, st =>
    let acq := tryAcquire (batchLockKey b) st
    if acq.1 then
      let res := scheduleBatches rest acq.2
      (b :: res.1, res.2)
    else scheduleBatches rest acq.2

/-- `get_human_details_in_batches(month, day, titles)`.  The Redis batch
counter (`wiki_batches:{task_id}`) only feeds logging and is not modeled. -/
def get_human_details_in_batches (titles : List String) (st : LockState) :
    List (List String) × LockState :=
  scheduleBatches (chunkList BATCH_SIZE titles) st

theorem scheduleBatches_cons_held {b : List String} {rest : List (List String)}
    {st : LockState} (hb : batchLockKey b ∈ st.held) :
    scheduleBatches (b :: rest) st = scheduleBatches rest st := by
  rw [scheduleBatches]
  simp [tryAcquire, hb]

theorem scheduleBatches_cons_free {b : List String} {rest : List (List String)}
    {st : LockState} (hb : batchLockKey b ∉ st.held) :
    scheduleBatches (b :: rest) st =
      (b :: (scheduleBatches rest ⟨batchLockKey b :: st.held⟩).1,
        (scheduleBatches rest ⟨batchLockKey b :: st.held⟩).2) := by
  rw [scheduleBatches]
  simp [tryAcquire, hb]

theorem scheduleBatches_held_mono {bs : List (List String)} {st : LockState} {k : String}
    (h : k ∈ st.held) : k ∈ (scheduleBatches bs st).2.held := by
  induction bs generalizing st with
  | nil => exact h
  | cons b rest ih =>
    by_cases hb : batchLockKey b ∈ st.held
    · rw [scheduleBatches_cons_held hb]
      exact ih h
    · rw [scheduleBatches_cons_free hb]
      exact ih (by simp [h])

theorem scheduleBatches_all_held {bs : List (List String)} {st : LockState} :
    ∀ b ∈ bs, batchLockKey b ∈ (scheduleBatches bs st).2.held := by
  induction bs generalizing st with
  | nil => simp
  | cons b rest ih =>
    intro x hx
    by_cases hb : batchLockKey b ∈ st.held
    · rw [scheduleBatches_cons_held hb]
      rcases List.mem_cons.mp hx with rfl | hx'
      · exact scheduleBatches_held_mono hb
      · exact ih x hx'
    · rw [scheduleBatches_cons_free hb]
      rcases List.mem_cons.mp hx with rfl | hx'
      · exact scheduleBatches_held_mono (by simp)
      · exact ih x hx'

theorem scheduleBatches_all_blocked {bs : List (List String)} {st : LockState}
    (h : ∀ b ∈ bs, batchLockKey b ∈ st.held) :
    scheduleBatches bs st = ([], st) := by
  induction bs with
  | nil => rfl
  | cons b rest ih =>
    rw [scheduleBatches_cons_held (h b (by simp))]
    exact ih (fun x hx => h x (by simp [hx]))

theorem scheduleBatches_countP (bs : List (List String)) (st : LockState)
    (c : List String) :
    ((scheduleBatches bs st).1.countP (fun b => batchLockKey b == batchLockKey c)) =
      if batchLockKey c ∈ st.held then 0
      else if bs.any (fun b => batchLockKey b == batchLockKey c) then 1 else 0 := by
  induction bs generalizing st with
  | nil =>
    simp [scheduleBatches]
  | cons b rest ih =>
    by_cases hb : batchLockKey b ∈ st.held
    · rw [scheduleBatches_cons_held hb, ih]
      by_cases hc : batchLockKey c ∈ st.held
      · simp [hc]
      · have hbc : (batchLockKey b == batchLockKey c) = false := by
          apply beq_eq_false_iff_ne.mpr
          intro he
          exact hc (he ▸ hb)
        simp [hc, List.any_cons, hbc]
    · rw [scheduleBatches_cons_free hb]
      by_cases hbc : batchLockKey b = batchLockKey c
      · have hcs : batchLockKey c ∈ (LockState.mk (batchLockKey b :: st.held)).held := by
          simp [hbc]
        rw [List.countP_cons, ih]
        have hc : batchLockKey c ∉ st.held := by rw [← hbc]; exact hb
        simp [hcs, hc, List.any_cons, hbc]
      · have hcs : (batchLockKey c ∈ (LockState.mk (batchLockKey b :: st.held)).held) ↔
            (batchLockKey c ∈ st.held) := by
          simp
          intro he
          exact absurd he.symm hbc
        rw [List.countP_cons, ih]
        have hbcb : (batchLockKey b == batchLockKey c) = false := beq_eq_false_iff_ne.mpr hbc
        by_cases hc : batchLockKey c ∈ st.held
        · simp [hcs.mpr hc, hc, hbcb]
        · simp only [hbcb, cond_false]
          rw [if_neg (fun hx => hc (hcs.mp hx)), if_neg hc]
          simp [List.any_cons, hbcb]

/-- **C6 counterexample.**  The lock key is a hash of the chunk in its given
order, not of the sorted chunk (`json.dumps(batch, sort_keys=True)` does not
sort a list).  Scheduling the identical set of titles twice within one lock
window, in different orders, acquires two different locks and dispatches the
same chunk of titles twice, contradicting both parts of the claim. -/
theorem C6_counterexample :
    List.Perm ["Alice", "Bob"] ["Bob", "Alice"] ∧
    batchLockKey ["Bob", "Alice"] ≠ batchLockKey ["Alice", "Bob"] ∧
    (get_human_details_in_batches ["Alice", "Bob"] ⟨[]⟩).1 = [["Alice", "Bob"]] ∧
    (get_human_details_in_batches ["Bob", "Alice"]
       (get_human_details_in_batches ["Alice", "Bob"] ⟨[]⟩).2).1 = [["Bob", "Alice"]] := by
  refine ⟨by decide, by decide, by decide, by decide⟩

/-- **C6 (amended).**  If `get_human_details_in_batches` is invoked twice
with the identical title list (same order) within the same lock window, each
chunk's lock key is derived from a content hash of the chunk in input order,
the second invocation fails to acquire each chunk's lock and dispatches
nothing, and — starting from a window with no held chunk lock — enrichment
is dispatched exactly once per chunk key across both invocations. -/
theorem C6_batch_dedup (titles : List String) (st : LockState)
    (hfree : ∀ c ∈ chunkList BATCH_SIZE titles, batchLockKey c ∉ st.held) :
    (get_human_details_in_batches titles
        (get_human_details_in_batches titles st).2).1 = [] ∧
    ∀ c ∈ chunkList BATCH_SIZE titles,
      ((get_human_details_in_batches titles st).1 ++
        (get_human_details_in_batches titles
          (get_human_details_in_batches titles st).2).1).countP
        (fun b => batchLockKey b == batchLockKey c) = 1 := by
  unfold get_human_details_in_batches
  have hblocked :
      scheduleBatches (chunkList BATCH_SIZE titles)
        (scheduleBatches (chunkList BATCH_SIZE titles) st).2 =
      ([], (scheduleBatches (chunkList BATCH_SIZE titles) st).2) :=
    scheduleBatches_all_blocked (fun b hb => scheduleBatches_all_held b hb)
  constructor
  · rw [hblocked]
  · intro c hc
    rw [hblocked]
    simp only [List.append_nil]
    rw [scheduleBatches_countP]
    rw [if_neg (hfree c hc)]
    rw [if_pos]
    exact List.any_eq_true.mpr ⟨c, hc, by simp⟩

/-- Witness for C6 (amended) at a concrete input: scheduling
`["Alice", "Bob"]` twice from a free window dispatches the chunk once. -/
theorem C6_batch_dedup_witness :
    (get_human_details_in_batches ["Alice", "Bob"]
        (get_human_details_in_batches ["Alice", "Bob"] ⟨[]⟩).2).1 = [] ∧
    ((get_human_details_in_batches ["Alice", "Bob"] ⟨[]⟩).1 ++
      (get_human_details_in_batches ["Alice", "Bob"]
        (get_human_details_in_batches ["Alice", "Bob"] ⟨[]⟩).2).1).countP
      (fun b => batchLockKey b == batchLockKey ["Alice", "Bob"]) = 1 := by
  have h := C6_batch_dedup ["Alice", "Bob"] ⟨[]⟩ (by decide)
  exact ⟨h.1, h.2 ["Alice", "Bob"] (by decide)⟩

/-! ## Metadata scraper: `fetch_wikipedia_metadata` (tasks.py 551-637)

The HTML parsing done by BeautifulSoup is abstracted: a fetched
page-information document is modeled by the values its stable table rows
carry — the redirect row's link target (`mw-pageinfo-redirectsto`) and the
extracted metadata fields. -/

structure Metadata where
  description : String
  good_article : Bool
  featured_article : Bool
  page_length : Option Int
  page_views_30_days : Option Int
  created_date : Option Int
  edit_count : Option Int
  recent_edits_30_days : Option Int
deriving DecidableEq

structure PageDoc where
  redirectHref : Option String
  meta : Metadata
deriving DecidableEq

/-- Model of `s.replace(a, b)` for one-character patterns. -/
def pyReplaceChar (a b : Char) (s : String) : String :=
  String.mk (s.data.map (fun c => if c = a then b else c))

/-- `fetch_wikipedia_metadata(page_title)`: cut at `#`, request the info page
for the underscored title, and if the document has a redirect row, recurse on
the target of its link (`href.split("/")[-1]`).  The recursion in the source
is unbounded; `fuel` models Python's recursion limit, and `none` models the
`RecursionError` a long enough redirect chain would raise. -/
def fetch_wikipedia_metadata (web : String → Option PageDoc) :
    Nat → String → Option (String × Option Metadata)
  | 0, _ => none
  | fuel + 1, title =>
    match web (pyReplaceChar ' ' '_' (pyHeadSeg '#' title)) with
    | none => some (pyHeadSeg '#' title, none)
    | some doc =>
      match doc.redirectHref with
      | some link => fetch_wikipedia_metadata web fuel (pyLastSeg '/' link)
      | none => some (pyHeadSeg '#' title, some doc.meta)

/-- The behavior the claim describes: follow at most one redirect
indirection, returning the redirect target's own title and metadata without
following any further redirect. -/
def fetchAtMostOneRedirect (web : String → Option PageDoc) (title : String) :
    Option (String × Option Metadata) :=
  match web (pyReplaceChar ' ' '_' (pyHeadSeg '#' title)) with
  | none => some (pyHeadSeg '#' title, none)
  | some doc =>
    match doc.redirectHref with
    | some link =>
      match web (pyReplaceChar ' ' '_' (pyHeadSeg '#' (pyLastSeg '/' link))) with
      | none => some (pyHeadSeg '#' (pyLastSeg '/' link), none)
      | some doc2 => some (pyHeadSeg '#' (pyLastSeg '/' link), some doc2.meta)
    | none => some (pyHeadSeg '#' title, some doc.meta)

def metaA : Metadata := ⟨"redirect page A", false, false, some 10, none, none, none, none⟩

def metaB : Metadata := ⟨"redirect page B", false, false, some 20, none, none, none, none⟩

def metaC : Metadata := ⟨"the target article", true, false, some 90000, some 5000, none,
  some 150, some 10⟩

/-- A concrete web with a two-step redirect chain `A → B → C`. -/
def webEx : String → Option PageDoc := fun t =>
  if t = "A" then some ⟨some "/wiki/B", metaA⟩
  else if t = "B" then some ⟨some "/wiki/C", metaB⟩
  else if t = "C" then some ⟨none, metaC⟩
  else none

/-- **C9 counterexample.**  On a web where `A` redirects to `B` and `B`
redirects to `C`, `fetch_wikipedia_metadata "A"` returns `C`'s title and
metadata: it follows the second indirection too, contradicting the claim that
it stops after a single indirection (which would return `B`'s own data). -/
theorem C9_counterexample :
    fetch_wikipedia_metadata webEx 10 "A" = some ("C", some metaC) ∧
    fetchAtMostOneRedirect webEx "A" = some ("B", some metaB) ∧
    fetch_wikipedia_metadata webEx 10 "A" ≠ fetchAtMostOneRedirect webEx "A" := by
  refine ⟨by rfl, by rfl, by decide⟩

/-- **C9 (amended).**  `fetch_wikipedia_metadata` follows redirect rows
recursively, one re-fetch per redirect document encountered, until it reaches
a document without a redirect row (whose title and metadata it returns) — it
is not capped at a single indirection. -/
theorem C9_fetch_follows_redirects (web : String → Option PageDoc) (fuel : Nat)
    (title : String) (doc : PageDoc)
    (hweb : web (pyReplaceChar ' ' '_' (pyHeadSeg '#' title)) = some doc) :
    (∀ link, doc.redirectHref = some link →
      fetch_wikipedia_metadata web (fuel + 1) title =
        fetch_wikipedia_metadata web fuel (pyLastSeg '/' link)) ∧
    (doc.redirectHref = none →
      fetch_wikipedia_metadata web (fuel + 1) title =
        some (pyHeadSeg '#' title, some doc.meta)) := by
  constructor
  · intro link hred
    rw [fetch_wikipedia_metadata, hweb]
    simp [hred]
  · intro hred
    rw [fetch_wikipedia_metadata, hweb]
    simp [hred]

/-- Witness for C9 (amended): on the concrete web, fetching `B` (which
redirects to `C`) performs the recursive call on `C`. -/
theorem C9_fetch_follows_redirects_witness :
    fetch_wikipedia_metadata webEx 5 "B" = fetch_wikipedia_metadata webEx 4 "C" := by
  have h := (C9_fetch_follows_redirects webEx 4 "B" ⟨some "/wiki/C", metaB⟩ (by rfl)).1
    "/wiki/C" rfl
  rw [h]
  rfl

/-! ## The relational store (models.py)

Rows carry the fields the enrichment pipeline reads or writes.  Coordinates
are kept as their raw numeric tokens (`float(...)` is not modeled — no claim
depends on float semantics).  A `Place.name` may be `none` when the SPARQL
row lacks the label binding. -/

structure PlaceRow where
  wikidata_id : String
  name : Option String
  latitude : Option String
  longitude : Option String
  last_updated : Int
deriving DecidableEq

structure AttrRow where
  wikidata_id : String
  label : String
  category : String
  last_updated : Int
deriving DecidableEq

structure HumanRow where
  wikidata_id : String
  name : String
  wikipedia_url : String
  birth_date : Option PDate
  is_birth_bc : Bool
  death_date : Option PDate
  is_death_bc : Bool
  birth_place : Option String
  death_place : Option String
  last_wikidata_update : Int
deriving DecidableEq

/-- The store: the three entity tables plus the Person-Attribute
many-to-many through table, keyed by `(human, attribute)` wikidata ids. -/
structure Store where
  humans : List HumanRow
  places : List PlaceRow
  attributes : List AttrRow
  assocs : List (String × String)
deriving DecidableEq

def findHuman (s : Store) (wid : String) : Option HumanRow :=
  s.humans.find? (fun h => h.wikidata_id == wid)

def findPlace (s : Store) (wid : String) : Option PlaceRow :=
  s.places.find? (fun p => p.wikidata_id == wid)

def findAttr (s : Store) (wid : String) : Option AttrRow :=
  s.attributes.find? (fun a => a.wikidata_id == wid)

/-- `list(AttributeType.values)` in declaration order. -/
def ATTRIBUTE_CHOICES : List String :=
  ["gender", "occupation", "ethnic_group", "field_of_work", "member_of",
   "manner_of_death", "cause_of_death", "handedness", "convicted_of",
   "award_received", "native_language", "political_ideology", "honorific_prefix",
   "religion_or_worldview", "medical_condition", "conflict", "educated_at",
   "academic_degree", "social_classification", "position_held"]

def OPTIONAL_FIELD_BATCH_SIZE : Nat := 5

/-- `chunk_optional_fields(n)`. -/
def chunk_optional_fields (n : Nat) : List (List String) := chunkList n ATTRIBUTE_CHOICES

/-! ## SPARQL result rows and assoc-list dictionaries -/

/-- One SPARQL result row: a finite partial map from variable name to bound
value; `bGet row k` models `result.get(k, {}).get("value")`. -/
abbrev Binding := List (String × String)

def bGet (row : Binding) (k : String) : Option String :=
  (row.find? (fun p => p.1 == k)).map (fun p => p.2)

/-- Python `dict` lookup on an insertion-ordered assoc list. -/
def alookup {α : Type} (l : List (String × α)) (k : String) : Option α :=
  (l.find? (fun p => p.1 == k)).map (fun p => p.2)

def akeys {α : Type} (l : List (String × α)) : List String := l.map (fun p => p.1)

/-- Python `dict` item assignment: overwrite in place or append. -/
def aset {α : Type} (l : List (String × α)) (k : String) (v : α) : List (String × α) :=
  if l.any (fun p => p.1 == k) then l.map (fun p => if p.1 == k then (k, v) else p)
  else l ++ [(k, v)]

/-- Python `dict.update`. -/
def adictUpdate {α : Type} (dst src : List (String × α)) : List (String × α) :=
  src.foldl (fun d p => aset d p.1 p.2) dst

/-! ## Pass context: snapshots taken at the start of `get_human_details`
(tasks.py 198-218) -/

structure Ctx where
  t : Int
  recentHumanIds : List String
  recentPlaceIds : List String
  recentAttrIds : List String
  existingHumanIds : List String
  existingPlaceIds : List String
  existingAttrIds : List String
deriving DecidableEq

/-- The recent/existing snapshots: humans are "recent" when
`two_minutes_ago <= last_wikidata_update < one_minute_ago`; places and
attributes when `two_minutes_ago <= last_updated`.  `t` is `now()` at the
start of the pass (the pass is modeled at one logical timestamp). -/
def mkCtx (t : Int) (s : Store) : Ctx :=
  { t := t
    recentHumanIds := (s.humans.filter (fun h =>
      decide (t - 120 ≤ h.last_wikidata_update ∧ h.last_wikidata_update < t - 60))).map
        (fun h => h.wikidata_id)
    recentPlaceIds := (s.places.filter (fun p =>
      decide (t - 120 ≤ p.last_updated))).map (fun p => p.wikidata_id)
    recentAttrIds := (s.attributes.filter (fun a =>
      decide (t - 120 ≤ a.last_updated))).map (fun a => a.wikidata_id)
    existingHumanIds := s.humans.map (fun h => h.wikidata_id)
    existingPlaceIds := s.places.map (fun p => p.wikidata_id)
    existingAttrIds := s.attributes.map (fun a => a.wikidata_id) }

/-- The core fields of `human_data` set only while processing the first
query group (tasks.py 250-269). -/
structure HumanCore where
  wikipedia_url : String
  birth_date : Option PDate
  is_birth_bc : Bool
  death_date : Option PDate
  is_death_bc : Bool
  birth_place_id : Option String
  death_place_id : Option String
deriving DecidableEq

/-- One entry of `humans_to_create_dict` / `humans_to_update_dict`:
`core = none` models a `human_data` dict missing the first-group keys. -/
structure HumanData where
  name : String
  core : Option HumanCore
  attributes : List String
deriving DecidableEq

/-- The mutable state threaded through one enrichment pass: the live store
(updated in place by `place.save()` / `attribute.save()`) and the dicts
accumulated for the bulk phase. -/
structure PassState where
  store : Store
  humans_to_create : List (String × HumanData)
  humans_to_update : List (String × HumanData)
  places_to_create : List (String × PlaceRow)
  attributes_to_create : List (String × AttrRow)
deriving DecidableEq

/-! ## `Place.parse_coordinates` and `Place.parse_and_update` (models.py) -/

/-- Python `str.split()` with no separator: whitespace runs, empties
discarded. -/
def pyWordsAux (cur : List Char) : List Char → List (List Char)
  | [] => if cur = [] then [] else [cur.reverse]
  | c :: rest =>
    if pyWS c then
      if cur = [] then pyWordsAux [] rest
      else cur.reverse :: pyWordsAux [] rest
    else pyWordsAux (c :: cur) rest

def pyWords (l : List Char) : List (List Char) := pyWordsAux [] l

/-- `s.replace("Point(", "")`: remove occurrences of `Point(`. -/
def removePoint : List Char → List Char
  | 'P' :: 'o' :: 'i' :: 'n' :: 't' :: '(' :: rest => removePoint rest
  | c :: rest => c :: removePoint rest
  | [] => []

/-- `Place.parse_coordinates(coord_string)`: returns (latitude, longitude) =
(parts[1], parts[0]).  The `float` conversions are kept as raw tokens; an
out-of-range index yields `none`. -/
def parse_coordinates (coord : Option String) : Option String × Option String :=
  match coord with
  | none => (none, none)
  | some s =>
    if s ≠ "" ∧ ¬ pyStartsWith s "http" then
      let parts := pyWords ((removePoint s.data).filter (fun c => c ≠ ')'))
      ((parts[1]?).map String.mk, (parts[0]?).map String.mk)
    else (none, none)

/-- `place.save()`: the in-place update of one existing place row
(models.py 65-69), executed immediately, outside any transaction. -/
def savePlace (ctx : Ctx) (pid : String) (pname : Option String)
    (coords : Option String × Option String) (s : Store) : Store :=
  { s with places := s.places.map (fun p =>
      if p.wikidata_id == pid then
        { p with
          name := pname
          latitude := coords.1
          longitude := coords.2
          last_updated := ctx.t }
      else p) }

/-- One (label-key, id-key, coordinates-key) triple of
`Place.parse_and_update`: skip when the id is missing, empty or recent;
save a changed existing place immediately (mutating the store); otherwise
queue the new place in the local `to_create` dict. -/
def parsePlaceTriple (ctx : Ctx) (row : Binding)
    (labelKey idKey coordKey : String)
    (st : Store × List (String × PlaceRow)) : Store × List (String × PlaceRow) :=
  match bGet row idKey with
  | none => st
  | some pid =>
    if pid ≠ "" ∧ pid ∉ ctx.recentPlaceIds then
      let pname := bGet row labelKey
      let coords := parse_coordinates (bGet row coordKey)
      if pid ∈ ctx.existingPlaceIds then
        match findPlace st.1 pid with
        | some place =>
          if place.name ≠ pname ∨ place.latitude ≠ coords.1 ∨ place.longitude ≠ coords.2 then
            (savePlace ctx pid pname coords st.1, st.2)
          else st
        | none => st
      else if pid ∉ akeys st.2 then
        (st.1, st.2 ++ [(pid, ⟨pid, pname, coords.1, coords.2, ctx.t⟩)])
      else st
    else st

/-- `Place.parse_and_update(result, recent_updates, existing_records)`:
the birth triple then the death triple; returns the store (with any saves
applied) and the local `to_create` dict. -/
def parse_and_update (ctx : Ctx) (row : Binding) (store : Store) :
    Store × List (String × PlaceRow) :=
  parsePlaceTriple ctx row "deathPlaceLabel" "deathPlaceID" "deathPlaceCoordinates"
    (parsePlaceTriple ctx row "birthPlaceLabel" "birthPlaceID" "birthPlaceCoordinates"
      (store, []))

/-! ## The attributes loop of `get_human_details` (tasks.py 273-299) -/

/-- `attribute.save()`: the in-place update of one existing attribute row
(tasks.py 291-294), executed immediately, outside any transaction. -/
def saveAttr (ctx : Ctx) (attr_id attr_label category : String) (s : Store) : Store :=
  { s with attributes := s.attributes.map (fun a =>
      if a.wikidata_id == attr_id then
        { a with
          label := attr_label
          category := category
          last_updated := ctx.t }
      else a) }

/-- One `attr_pair` of the attributes loop.  `attr_id, attr_label =
attr_pair.split("||")`: a split that does not yield exactly two parts raises
`ValueError` (state unchanged at that point).  A non-empty id is appended to
`attribute_ids`; a non-recent id updates the existing attribute row in place
(`attribute.save()`) or queues a new row.  `category` is
`AttributeType(attribute_choice).value`, which is the choice string itself. -/
def procPair (ctx : Ctx) (category : String) (pair : String)
    (st : PassState × List String) : (PassState × List String) × Option PyErr :=
  match pySplitS2 '|' '|' pair with
  | [attr_id, attr_label] =>
    if attr_id ≠ "" then
      if attr_id ∉ ctx.recentAttrIds then
        if attr_id ∈ ctx.existingAttrIds then
          match findAttr st.1.store attr_id with
          | some attrRow =>
            if attrRow.label ≠ attr_label ∨ attrRow.category ≠ category then
              (({ st.1 with store := saveAttr ctx attr_id attr_label category st.1.store },
                st.2 ++ [attr_id]), none)
            else ((st.1, st.2 ++ [attr_id]), none)
          | none => ((st.1, st.2 ++ [attr_id]), none)
        else if attr_id ∉ akeys st.1.attributes_to_create then
          (({ st.1 with attributes_to_create :=
              st.1.attributes_to_create ++ [(attr_id, ⟨attr_id, attr_label, category, ctx.t⟩)] },
            st.2 ++ [attr_id]), none)
        else ((st.1, st.2 ++ [attr_id]), none)
      else ((st.1, st.2 ++ [attr_id]), none)
    else (st, none)
  | _ => (st, some .valueError)

/-- `for attr_pair in attr_data.split("@@")`, stopping at the first raised
exception (the partial state before it is kept, as in Python). -/
def procPairs (ctx : Ctx) (category : String) :
    List String → PassState × List String → (PassState × List String) × Option PyErr
  | [], st => (st, none)
  | p :: rest, st =>
    let r := procPair ctx category p st
    match r.2 with
    | some _ => r
    | none => procPairs ctx category rest r.1

/-- One `attribute_choice` of the loop: skipped when the field is absent or
empty (`if attr_data:`). -/
def procChoice (ctx : Ctx) (row : Binding) (choice : String)
    (st : PassState × List String) : (PassState × List String) × Option PyErr :=
  match bGet row choice with
  | none => (st, none)
  | some v =>
    if v ≠ "" then procPairs ctx choice (pySplitS2 '@' '@' v) st else (st, none)

/-- `for attribute_choice in ATTRIBUTE_CHOICES` with exception cut-off. -/
def procChoices (ctx : Ctx) (row : Binding) :
    List String → PassState × List String → (PassState × List String) × Option PyErr
  | [], st => (st, none)
  | c :: rest, st =>
    let r := procChoice ctx row c st
    match r.2 with
    | some _ => r
    | none => procChoices ctx row rest r.1

/-! ## Row processing (tasks.py 242-317) -/

/-- The tail of one row: the attributes loop, then the create/update dict
bookkeeping.  The inner `if wikidata_id not in humans_to_create_dict` of the
source (line 312) always holds under the `elif` of line 310, so its
else-branch (lines 315-317) is unreachable and a row whose id is already in
the create dict leaves the dict unchanged. -/
def procRowDict (ctx : Ctx) (wid nm : String) (core : Option HumanCore)
    (attribute_ids : List String) (ps1 : PassState) : PassState :=
  if wid ∈ ctx.existingHumanIds then
    match alookup ps1.humans_to_update wid with
    | none =>
      { ps1 with humans_to_update :=
          ps1.humans_to_update ++ [(wid, ⟨nm, core, attribute_ids⟩)] }
    | some old =>
      { ps1 with
          humans_to_update :=
            aset ps1.humans_to_update wid
              ⟨nm, (match core with | some c => some c | none => old.core),
                old.attributes ++ attribute_ids⟩ }
  else if wid ∉ akeys ps1.humans_to_create then
    { ps1 with humans_to_create :=
        ps1.humans_to_create ++ [(wid, ⟨nm, core, attribute_ids⟩)] }
  else ps1

def procRowTail (ctx : Ctx) (row : Binding) (wid nm : String)
    (core : Option HumanCore) (ps : PassState) : PassState × Option PyErr :=
  match (procChoices ctx row ATTRIBUTE_CHOICES (ps, [])).2 with
  | some e => ((procChoices ctx row ATTRIBUTE_CHOICES (ps, [])).1.1, some e)
  | none =>
    (procRowDict ctx wid nm core (procChoices ctx row ATTRIBUTE_CHOICES (ps, [])).1.2
      (procChoices ctx row ATTRIBUTE_CHOICES (ps, [])).1.1, none)

/-- Processing of one result row: recent-human skip (guarded by the
truthiness of the extracted id), core fact parsing on the first query group
(URL, dates, places), then the tail.  `result["item"]` / `result["itemLabel"]`
raise `KeyError` when missing; `parse_date` may raise `IndexError`. -/
def procRow (ctx : Ctx) (isFirst : Bool) (row : Binding) (ps : PassState) :
    PassState × Option PyErr :=
  match bGet row "item" with
  | none => (ps, some .keyError)
  | some itemVal =>
    if pyLastSeg '/' itemVal ≠ "" ∧ pyLastSeg '/' itemVal ∈ ctx.recentHumanIds then
      (ps, none)
    else
      match bGet row "itemLabel" with
      | none => (ps, some .keyError)
      | some nm =>
        if isFirst then
          match parse_date (bGet row "dobValues") (bGet row "dobStatements") with
          | .error e => (ps, some e)
          | .ok bres =>
            match parse_date (bGet row "dodValues") (bGet row "dodStatements") with
            | .error e => (ps, some e)
            | .ok dres =>
              procRowTail ctx row (pyLastSeg '/' itemVal) nm
                (some ⟨(match bGet row "article" with
                    | some u => pyLastSeg '/' u
                    | none => ""),
                  bres.1, bres.2, dres.1, dres.2,
                  bGet row "birthPlaceID", bGet row "deathPlaceID"⟩)
                { ps with
                  store := (parse_and_update ctx row ps.store).1
                  places_to_create :=
                    adictUpdate ps.places_to_create (parse_and_update ctx row ps.store).2 }
        else procRowTail ctx row (pyLastSeg '/' itemVal) nm none ps

/-- `for result in results["results"]["bindings"]` with exception cut-off. -/
def procRows (ctx : Ctx) (isFirst : Bool) :
    List Binding → PassState → PassState × Option PyErr
  | [], ps => (ps, none)
  | r :: rest, ps =>
    let pr := procRow ctx isFirst r ps
    match pr.2 with
    | some _ => pr
    | none => procRows ctx isFirst rest pr.1

/-! ## The retry loop (tasks.py 238-331) -/

/-- The upstream outcome of one query execution: a JSON result, a
`QueryBadFormed` rejection, or another exception whose string may contain
`"429"`. -/
inductive QueryOutcome where
  | ok (rows : List Binding)
  | badFormed
  | err (contains429 : Bool)
deriving DecidableEq

/-- Observable actions of one enrichment pass, for stating the retry and
transaction claims: `query g k` is the `sparql.query()` call of group `g`,
attempt `k`; `backoff g k secs` the `time.sleep(retry_after)` of the
rate-limit handler; `txAttempt`/`txFail` bracket the bulk transaction;
`earlyReturn g` the `return` taken when group `g`'s query lock is held. -/
inductive Ev where
  | query (g k : Nat)
  | backoff (g k : Nat) (secs : Int)
  | txAttempt
  | txFail
  | earlyReturn (g : Nat)
deriving DecidableEq

def max_retries : Nat := 5

def base_delay : Int := 2

/-- The `for attempt in range(max_retries)` loop for one query group.
On success the result rows are processed and — with no `break` in the source
— the loop proceeds to the next attempt (claim C10).  A row-processing
exception is caught by the generic `except` handler (its message carries no
`"429"`), abandoning the group.  `QueryBadFormed` breaks immediately; a
`"429"` error sleeps `base_delay * 2 ** attempt` and retries. -/
def attemptLoop (g : Nat) (exec : Nat → QueryOutcome) (ctx : Ctx) (isFirst : Bool) :
    Nat → Nat → PassState → PassState × List Ev
  | 0, _, ps => (ps, [])
  | rem + 1, k, ps =>
    match exec k with
    | .ok rows =>
      let pr := procRows ctx isFirst rows ps
      match pr.2 with
      | none =>
        let res := attemptLoop g exec ctx isFirst rem (k + 1) pr.1
        (res.1, .query g k :: res.2)
      | some _ => (pr.1, [.query g k])
    | .badFormed => (ps, [.query g k])
    | .err c429 =>
      if c429 then
        let res := attemptLoop g exec ctx isFirst rem (k + 1) ps
        (res.1, .query g k :: .backoff g k (base_delay * 2 ^ k) :: res.2)
      else (ps, [.query g k])

/-! ## Query locks and the group loop (tasks.py 219-331) -/

/-- `get_query_lock_key(query)` hashes the SPARQL query string; the hash is
modeled injectively by the inputs that determine the query: the batch
titles, the attribute batch, and the is-first flag. -/
abbrev QKey := List String × List String × Bool

structure QLockState where
  held : List QKey
deriving DecidableEq

def qTryAcquire (key : QKey) (st : QLockState) : Bool × QLockState :=
  if key ∈ st.held then (false, st) else (true, ⟨key :: st.held⟩)

structure GroupsResult where
  state : PassState
  qlocks : QLockState
  trace : List Ev
  early : Bool
deriving DecidableEq

/-- `for attribute_batch in chunk_optional_fields(...)`: acquire the query
lock (on failure the whole task `return`s, skipping the bulk phase), run the
retry loop, move on with `is_first_batch = False`. -/
def groupsLoop (titles : List String) (execG : Nat → Nat → QueryOutcome) (ctx : Ctx) :
    List (List String) → Nat → QLockState → PassState → GroupsResult
  | [], _, ql, ps => ⟨ps, ql, [], false⟩
  | batch :: rest, g, ql, ps =>
    let acq := qTryAcquire (titles, batch, decide (g = 0)) ql
    if acq.1 then
      let al := attemptLoop g (execG g) ctx (decide (g = 0)) max_retries 0 ps
      let res := groupsLoop titles execG ctx rest (g + 1) acq.2 al.1
      ⟨res.state, res.qlocks, al.2 ++ res.trace, res.early⟩
    else ⟨ps, acq.2, [.earlyReturn g], true⟩

/-! ## The bulk-write transaction (tasks.py 333-432) -/

/-- `bulk_create(..., ignore_conflicts=True)` for one row: skip the row when
it clashes with a present row, else append. -/
def insertIfAbsent {α : Type} (clash : α → α → Bool) (tbl : List α) (x : α) : List α :=
  if tbl.any (clash x) then tbl else tbl ++ [x]

def bulkInsert {α : Type} (clash : α → α → Bool) (tbl : List α) (xs : List α) : List α :=
  xs.foldl (insertIfAbsent clash) tbl

/-- Place rows conflict on the primary key or on equal (non-NULL) unique
names. -/
def placeClash (x y : PlaceRow) : Bool :=
  x.wikidata_id == y.wikidata_id ||
    (match x.name, y.name with
     | some a, some b => a == b
     | _, _ => false)

def attrClash (x y : AttrRow) : Bool := x.wikidata_id == y.wikidata_id

def humanClash (x y : HumanRow) : Bool := x.wikidata_id == y.wikidata_id

def assocClash (x y : String × String) : Bool := x == y

/-- `existing_places.get(id) if human_data["birth_place_id"] else None`. -/
def fkLookup (places : List PlaceRow) (pid? : Option String) : Option String :=
  match pid? with
  | some pid =>
    if pid ≠ "" then
      (if places.any (fun p => p.wikidata_id == pid) then some pid else none)
    else none
  | none => none

/-- Build one `NotableHuman(...)` row for `humans_to_create`
(tasks.py 343-359) from core data present in its `human_data` dict. -/
def buildHumanRow (t : Int) (places : List PlaceRow) (wid : String) (hd : HumanData)
    (c : HumanCore) : HumanRow :=
  { wikidata_id := wid
    name := hd.name
    wikipedia_url := c.wikipedia_url
    birth_date := c.birth_date
    is_birth_bc := c.is_birth_bc
    death_date := c.death_date
    is_death_bc := c.is_death_bc
    birth_place := fkLookup places c.birth_place_id
    death_place := fkLookup places c.death_place_id
    last_wikidata_update := t }

/-- The field assignments of the update loop (tasks.py 387-401) on an
existing row; `bulk_update` then writes exactly these fields. -/
def applyHumanUpdate (t : Int) (places : List PlaceRow) (hd : HumanData) (c : HumanCore)
    (h : HumanRow) : HumanRow :=
  { h with
    name := hd.name
    wikipedia_url := c.wikipedia_url
    birth_date := c.birth_date
    is_birth_bc := c.is_birth_bc
    death_date := c.death_date
    is_death_bc := c.is_death_bc
    birth_place := fkLookup places c.birth_place_id
    death_place := fkLookup places c.death_place_id
    last_wikidata_update := t }

/-- The body of `with transaction.atomic()`: bulk create places and
attributes (refetching after each), build and bulk create humans, insert the
new humans' associations, bulk update existing humans, then add the updated
humans' associations.  An exception (`KeyError` from a core-less
`human_data`) aborts the whole transaction: the caller keeps the
pre-transaction store. -/
def bulkWrite (t : Int) (ps : PassState) : Except PyErr Store :=
  let s := ps.store
  let places1 := bulkInsert placeClash s.places (ps.places_to_create.map (fun p => p.2))
  let attrs1 := bulkInsert attrClash s.attributes (ps.attributes_to_create.map (fun p => p.2))
  -- the create loop raises `KeyError` at the first core-less `human_data`;
  -- modeled as one up-front check with the same outcome
  if ps.humans_to_create.all (fun p => p.2.core.isSome) then
    let newHumans := ps.humans_to_create.filterMap (fun p =>
      p.2.core.map (fun c => buildHumanRow t places1 p.1 p.2 c))
    let humans1 := bulkInsert humanClash s.humans newHumans
    let relations := (ps.humans_to_create.map (fun p =>
      if humans1.any (fun h => h.wikidata_id == p.1) then
        p.2.attributes.filterMap (fun aid =>
          if attrs1.any (fun a => a.wikidata_id == aid) then some (p.1, aid) else none)
      else [])).flatten
    let assocs1 := bulkInsert assocClash s.assocs relations
    -- likewise for the update loop
    if ps.humans_to_update.all (fun p => p.2.core.isSome) then
      let updates := ps.humans_to_update.filterMap (fun p =>
        p.2.core.map (fun c => (p.1, p.2, c)))
      let humans2 := updates.foldl (fun tbl u =>
        tbl.map (fun h =>
          if h.wikidata_id == u.1 then applyHumanUpdate t places1 u.2.1 u.2.2 h else h))
        humans1
      let assocs2 := updates.foldl (fun aa u =>
        bulkInsert assocClash aa (u.2.1.attributes.filterMap (fun aid =>
          if attrs1.any (fun a => a.wikidata_id == aid) then some (u.1, aid) else none)))
        assocs1
      .ok { humans := humans2, places := places1, attributes := attrs1, assocs := assocs2 }
    else .error .keyError
  else .error .keyError

/-! ## `get_human_details` (tasks.py 183-446) -/

/-- The whole task at one logical timestamp `t`: the `human_details_task`
lock (`taskLockOk`), the recent/existing snapshots, the four query groups,
and the bulk transaction whose failure is caught and logged (`txFail`),
leaving the parse-phase store in place.  Redis lock release and the batch
counter in `finally` only feed logging and are not modeled. -/
def get_human_details (t : Int) (titles : List String)
    (execG : Nat → Nat → QueryOutcome) (store0 : Store) (taskLockOk : Bool)
    (ql : QLockState) : Store × List Ev :=
  if ¬ taskLockOk then (store0, [])
  else
    let ctx := mkCtx t store0
    let ps0 : PassState := ⟨store0, [], [], [], []⟩
    let gr := groupsLoop titles execG ctx
      (chunk_optional_fields OPTIONAL_FIELD_BATCH_SIZE) 0 ql ps0
    if gr.early then (gr.state.store, gr.trace)
    else
      match bulkWrite t gr.state with
      | .ok s2 => (s2, gr.trace ++ [.txAttempt])
      | .error _ => (gr.state.store, gr.trace ++ [.txAttempt, .txFail])

/-! ## Claim C8: malformed attribute pairs -/

def emptyStore : Store := ⟨[], [], [], []⟩

def ctxE : Ctx := mkCtx 10000 emptyStore

def psE : PassState := ⟨emptyStore, [], [], [], []⟩

def c8_row_ok : Binding :=
  [("item", "http://www.wikidata.org/entity/Q1"), ("itemLabel", "Alice"),
   ("gender", "Q6581072||female")]

/-- A row whose `gender` field holds the malformed pair `Q1||x||y` (splitting
into three parts at `"||"`). -/
def c8_row_bad : Binding :=
  [("item", "http://www.wikidata.org/entity/Q2"), ("itemLabel", "Bob"),
   ("gender", "Q1||x||y")]

def c8_row_after : Binding :=
  [("item", "http://www.wikidata.org/entity/Q3"), ("itemLabel", "Carol"),
   ("gender", "Q6581097||male")]

/-- **C8 counterexample.**  The claim says a malformed `id||label` pair only
skips that field, with the rest of the record and the remaining records of
the group still processed.  In the code, `attr_id, attr_label =
attr_pair.split("||")` raises `ValueError`, which the per-attempt `except`
handler catches by abandoning the group: on a group with rows for Q1, a
malformed row for Q2 and a row for Q3, the Q1 row is kept, but neither the
malformed record (Q2) nor the following record (Q3) enters the create dict. -/
theorem C8_counterexample :
    (procRows ctxE false [c8_row_ok, c8_row_bad, c8_row_after] psE).2 =
      some .valueError ∧
    alookup (procRows ctxE false [c8_row_ok, c8_row_bad, c8_row_after] psE).1.humans_to_create
      "Q1" = some ⟨"Alice", none, ["Q6581072"]⟩ ∧
    alookup (procRows ctxE false [c8_row_ok, c8_row_bad, c8_row_after] psE).1.humans_to_create
      "Q2" = none ∧
    alookup (procRows ctxE false [c8_row_ok, c8_row_bad, c8_row_after] psE).1.humans_to_create
      "Q3" = none := by
  refine ⟨by decide, by decide, by decide, by decide⟩

/-- **C8 (amended).**  A malformed `id||label` pair raises `ValueError`
inside row processing; the exception aborts the remaining rows of that query
group's attempt: records processed before the bad record are kept (including
their immediate saves), the bad record contributes only the state mutations
made before the exception, and the records after it are not processed at
all.  Other query groups are unaffected (they run in their own attempts). -/
theorem procRows_cons_ok (ctx : Ctx) (isFirst : Bool) (r : Binding)
    (rest : List Binding) (ps : PassState)
    (h : (procRow ctx isFirst r ps).2 = none) :
    procRows ctx isFirst (r :: rest) ps =
      procRows ctx isFirst rest (procRow ctx isFirst r ps).1 := by
  rw [procRows]
  cases hpr : procRow ctx isFirst r ps with
  | mk st err =>
    have herr : err = none := by rw [hpr] at h; exact h
    subst herr
    simp

theorem procRows_cons_err (ctx : Ctx) (isFirst : Bool) (r : Binding)
    (rest : List Binding) (ps : PassState) (e : PyErr)
    (h : (procRow ctx isFirst r ps).2 = some e) :
    procRows ctx isFirst (r :: rest) ps = ((procRow ctx isFirst r ps).1, some e) := by
  rw [procRows]
  cases hpr : procRow ctx isFirst r ps with
  | mk st err =>
    have herr : err = some e := by rw [hpr] at h; exact h
    subst herr
    simp

theorem C8_malformed_pair_aborts (ctx : Ctx) (isFirst : Bool)
    (rows1 rows2 : List Binding) (rowBad : Binding) (ps : PassState) (e : PyErr)
    (h1 : (procRows ctx isFirst rows1 ps).2 = none)
    (hbad : (procRow ctx isFirst rowBad (procRows ctx isFirst rows1 ps).1).2 = some e) :
    procRows ctx isFirst (rows1 ++ rowBad :: rows2) ps =
      ((procRow ctx isFirst rowBad (procRows ctx isFirst rows1 ps).1).1, some e) := by
  induction rows1 generalizing ps with
  | nil =>
    simp only [List.nil_append]
    have hps1 : (procRows ctx isFirst [] ps).1 = ps := rfl
    rw [hps1] at hbad ⊢
    exact procRows_cons_err ctx isFirst rowBad rows2 ps e hbad
  | cons r rows1' ih =>
    have hpr2 : (procRow ctx isFirst r ps).2 = none := by
      cases hpr : (procRow ctx isFirst r ps).2 with
      | none => rfl
      | some e2 =>
        rw [procRows_cons_err ctx isFirst r rows1' ps e2 hpr] at h1
        simp at h1
    simp only [List.cons_append]
    rw [procRows_cons_ok ctx isFirst r rows1' ps hpr2] at h1 hbad
    rw [procRows_cons_ok ctx isFirst r (rows1' ++ rowBad :: rows2) ps hpr2,
      procRows_cons_ok ctx isFirst r rows1' ps hpr2]
    exact ih (procRow ctx isFirst r ps).1 h1 hbad

/-- Witness for C8 (amended) at the concrete three-row group. -/
theorem C8_malformed_pair_aborts_witness :
    procRows ctxE false [c8_row_ok, c8_row_bad, c8_row_after] psE =
      ((procRow ctxE false c8_row_bad
          (procRows ctxE false [c8_row_ok] psE).1).1, some .valueError) := by
  exact C8_malformed_pair_aborts ctxE false [c8_row_ok] [c8_row_after] c8_row_bad psE
    .valueError (by decide) (by decide)

/-! ## Claim C10: no break after a successful attempt -/

def c10_store : Store :=
  ⟨[⟨"Q1", "Old", "", none, false, none, false, none, none, 0⟩], [], [], []⟩

def c10_ctx : Ctx := mkCtx 10000 c10_store

def c10_ps : PassState := ⟨c10_store, [], [], [], []⟩

def c10_exec : Nat → Nat → QueryOutcome :=
  fun g _ => if g = 0 then .ok [c8_row_ok] else .err false

/-- **C10.**  For a query group whose execution and row processing never
raise, the retry loop does not stop after a success: all `max_retries = 5`
attempts run the identical query (`query g k` for every `k < 5`) and the
rows are re-parsed on each repetition (the final state is the 5-fold
iteration of the row-processing pass).  Concretely, for the existing human
Q1 seen with attribute `Q6581072` in every repetition, the update dict
accumulates five duplicate attribute ids, and the final store still carries
the association only once (deduplicated by the idempotent insert). -/
theorem C10_retry_loop_reruns_success (g : Nat) (exec : Nat → QueryOutcome)
    (ctx : Ctx) (isFirst : Bool) (rows : List Binding) (ps : PassState)
    (hexec : ∀ k, k < max_retries → exec k = .ok rows)
    (hok : ∀ k, k < max_retries →
      (procRows ctx isFirst rows
        ((fun st => (procRows ctx isFirst rows st).1)^[k] ps)).2 = none) :
    ((∀ k, k < max_retries →
        Ev.query g k ∈ (attemptLoop g exec ctx isFirst max_retries 0 ps).2) ∧
      (attemptLoop g exec ctx isFirst max_retries 0 ps).1 =
        (fun st => (procRows ctx isFirst rows st).1)^[5] ps) ∧
    (alookup (groupsLoop ["T"] c10_exec c10_ctx (chunk_optional_fields 5) 0 ⟨[]⟩
        c10_ps).state.humans_to_update "Q1" =
      some ⟨"Alice", some ⟨"", none, false, none, false, none, none⟩,
        ["Q6581072", "Q6581072", "Q6581072", "Q6581072", "Q6581072"]⟩ ∧
      (get_human_details 10000 ["T"] c10_exec c10_store true ⟨[]⟩).1.assocs =
        [("Q1", "Q6581072")]) := by
  have h0 := hexec 0 (by decide)
  have h1 := hexec 1 (by decide)
  have h2 := hexec 2 (by decide)
  have h3 := hexec 3 (by decide)
  have h4 := hexec 4 (by decide)
  have hf : ∀ st, (fun st => (procRows ctx isFirst rows st).1) st =
      (procRows ctx isFirst rows st).1 := fun _ => rfl
  have hok0 := hok 0 (by decide)
  have hok1 := hok 1 (by decide)
  have hok2 := hok 2 (by decide)
  have hok3 := hok 3 (by decide)
  have hok4 := hok 4 (by decide)
  simp only [Function.iterate_succ, Function.iterate_zero, Function.comp_apply,
    id_eq] at hok0 hok1 hok2 hok3 hok4
  have hrun : attemptLoop g exec ctx isFirst max_retries 0 ps =
      ((fun st => (procRows ctx isFirst rows st).1)^[5] ps,
        [.query g 0, .query g 1, .query g 2, .query g 3, .query g 4]) := by
    simp only [Function.iterate_succ, Function.iterate_zero, Function.comp_apply, id_eq]
    simp only [max_retries]
    rw [attemptLoop, h0]
    cases hp0 : procRows ctx isFirst rows ps with
    | mk s0 e0 =>
      rw [hp0] at hok0 hok1 hok2 hok3 hok4
      simp only at hok0 hok1 hok2 hok3 hok4
      subst hok0
      simp only
      rw [attemptLoop, h1]
      cases hp1 : procRows ctx isFirst rows s0 with
      | mk s1 e1 =>
        rw [hp1] at hok1 hok2 hok3 hok4
        simp only at hok1 hok2 hok3 hok4
        subst hok1
        simp only
        rw [attemptLoop, h2]
        cases hp2 : procRows ctx isFirst rows s1 with
        | mk s2 e2 =>
          rw [hp2] at hok2 hok3 hok4
          simp only at hok2 hok3 hok4
          subst hok2
          simp only
          rw [attemptLoop, h3]
          cases hp3 : procRows ctx isFirst rows s2 with
          | mk s3 e3 =>
            rw [hp3] at hok3 hok4
            simp only at hok3 hok4
            subst hok3
            simp only
            rw [attemptLoop, h4]
            cases hp4 : procRows ctx isFirst rows s3 with
            | mk s4 e4 =>
              rw [hp4] at hok4
              simp only at hok4
              subst hok4
              simp only [attemptLoop]
              rw [hp0, hp1, hp2, hp3, hp4]
  refine ⟨⟨?_, ?_⟩, by decide, by decide⟩
  · intro k hk
    rw [hrun]
    simp only [max_retries] at hk
    interval_cases k <;> simp
  · rw [hrun]

/-- Witness for C10 at the concrete group: five query events for group 0 of
the concrete execution. -/
theorem C10_retry_loop_reruns_success_witness :
    Ev.query 0 4 ∈ (attemptLoop 0 (c10_exec 0) c10_ctx false max_retries 0 c10_ps).2 := by
  exact (C10_retry_loop_reruns_success 0 (c10_exec 0) c10_ctx false [c8_row_ok] c10_ps
    (by decide) (by decide)).1.1 4 (by decide)

/-! ## Claim C7: the retry policy -/

theorem attemptLoop_step_ok_ok {g : Nat} {exec : Nat → QueryOutcome} {ctx : Ctx}
    {isFirst : Bool} {rem k : Nat} {ps : PassState} {rows : List Binding}
    (h1 : exec k = .ok rows) (h2 : (procRows ctx isFirst rows ps).2 = none) :
    attemptLoop g exec ctx isFirst (rem + 1) k ps =
      ((attemptLoop g exec ctx isFirst rem (k + 1) (procRows ctx isFirst rows ps).1).1,
        .query g k ::
          (attemptLoop g exec ctx isFirst rem (k + 1) (procRows ctx isFirst rows ps).1).2) := by
  rw [attemptLoop, h1]
  cases hpr : procRows ctx isFirst rows ps with
  | mk st err =>
    have herr : err = none := by rw [hpr] at h2; exact h2
    subst herr
    simp [hpr]

theorem attemptLoop_step_ok_err {g : Nat} {exec : Nat → QueryOutcome} {ctx : Ctx}
    {isFirst : Bool} {rem k : Nat} {ps : PassState} {rows : List Binding} {e : PyErr}
    (h1 : exec k = .ok rows) (h2 : (procRows ctx isFirst rows ps).2 = some e) :
    attemptLoop g exec ctx isFirst (rem + 1) k ps =
      ((procRows ctx isFirst rows ps).1, [.query g k]) := by
  rw [attemptLoop, h1]
  cases hpr : procRows ctx isFirst rows ps with
  | mk st err =>
    have herr : err = some e := by rw [hpr] at h2; exact h2
    subst herr
    simp [hpr]

theorem attemptLoop_step_bad {g : Nat} {exec : Nat → QueryOutcome} {ctx : Ctx}
    {isFirst : Bool} {rem k : Nat} {ps : PassState}
    (h : exec k = .badFormed) :
    attemptLoop g exec ctx isFirst (rem + 1) k ps = (ps, [.query g k]) := by
  rw [attemptLoop, h]

theorem attemptLoop_step_429 {g : Nat} {exec : Nat → QueryOutcome} {ctx : Ctx}
    {isFirst : Bool} {rem k : Nat} {ps : PassState}
    (h : exec k = .err true) :
    attemptLoop g exec ctx isFirst (rem + 1) k ps =
      ((attemptLoop g exec ctx isFirst rem (k + 1) ps).1,
        .query g k :: .backoff g k (base_delay * 2 ^ k) ::
          (attemptLoop g exec ctx isFirst rem (k + 1) ps).2) := by
  rw [attemptLoop, h]
  simp

theorem attemptLoop_step_errf {g : Nat} {exec : Nat → QueryOutcome} {ctx : Ctx}
    {isFirst : Bool} {rem k : Nat} {ps : PassState}
    (h : exec k = .err false) :
    attemptLoop g exec ctx isFirst (rem + 1) k ps = (ps, [.query g k]) := by
  rw [attemptLoop, h]
  simp

/-- Shape of the retry-loop trace: only `query`/`backoff` events of this
group, with attempt indices in `[k, k + rem)`. -/
theorem attemptLoop_trace_shape (g : Nat) (exec : Nat → QueryOutcome) (ctx : Ctx)
    (isFirst : Bool) : ∀ (rem k : Nat) (ps : PassState) (e : Ev),
    e ∈ (attemptLoop g exec ctx isFirst rem k ps).2 →
    ∃ kq, k ≤ kq ∧ kq < k + rem ∧
      (e = Ev.query g kq ∨ ∃ d, e = Ev.backoff g kq d) := by
  intro rem
  induction rem with
  | zero => intro k ps e he; simp [attemptLoop] at he
  | succ rem ih =>
    intro k ps e he
    cases hx : exec k with
    | ok rows =>
      cases hpr : (procRows ctx isFirst rows ps).2 with
      | none =>
        rw [attemptLoop_step_ok_ok hx hpr] at he
        rcases List.mem_cons.mp he with rfl | he'
        · exact ⟨k, le_refl k, by omega, Or.inl rfl⟩
        · obtain ⟨kq, hk1, hk2, hsh⟩ := ih (k + 1) _ e he'
          exact ⟨kq, by omega, by omega, hsh⟩
      | some e2 =>
        rw [attemptLoop_step_ok_err hx hpr] at he
        rcases List.mem_cons.mp he with rfl | he'
        · exact ⟨k, le_refl k, by omega, Or.inl rfl⟩
        · simp at he'
    | badFormed =>
      rw [attemptLoop_step_bad hx] at he
      rcases List.mem_cons.mp he with rfl | he'
      · exact ⟨k, le_refl k, by omega, Or.inl rfl⟩
      · simp at he'
    | err c429 =>
      cases c429 with
      | true =>
        rw [attemptLoop_step_429 hx] at he
        rcases List.mem_cons.mp he with rfl | he'
        · exact ⟨k, le_refl k, by omega, Or.inl rfl⟩
        · rcases List.mem_cons.mp he' with rfl | he2
          · exact ⟨k, le_refl k, by omega, Or.inr ⟨base_delay * 2 ^ k, rfl⟩⟩
          · obtain ⟨kq, hk1, hk2, hsh⟩ := ih (k + 1) ps e he2
            exact ⟨kq, by omega, by omega, hsh⟩
      | false =>
        rw [attemptLoop_step_errf hx] at he
        rcases List.mem_cons.mp he with rfl | he'
        · exact ⟨k, le_refl k, by omega, Or.inl rfl⟩
        · simp at he'

/-- The retry loop always issues the query of its first attempt. -/
theorem attemptLoop_head_query (g : Nat) (exec : Nat → QueryOutcome) (ctx : Ctx)
    (isFirst : Bool) (rem k : Nat) (ps : PassState) :
    Ev.query g k ∈ (attemptLoop g exec ctx isFirst (rem + 1) k ps).2 := by
  cases hx : exec k with
  | ok rows =>
    cases hpr : (procRows ctx isFirst rows ps).2 with
    | none => rw [attemptLoop_step_ok_ok hx hpr]; simp
    | some e2 => rw [attemptLoop_step_ok_err hx hpr]; simp
  | badFormed => rw [attemptLoop_step_bad hx]; simp
  | err c429 =>
    cases c429 with
    | true => rw [attemptLoop_step_429 hx]; simp
    | false => rw [attemptLoop_step_errf hx]; simp

/-- A rate-limit signal at a reached attempt `kq` is followed by the
exponential-backoff sleep `base_delay * 2 ** kq` and, when attempts remain,
by the next attempt. -/
theorem attemptLoop_429 (g : Nat) (exec : Nat → QueryOutcome) (ctx : Ctx)
    (isFirst : Bool) : ∀ (rem k : Nat) (ps : PassState) (kq : Nat),
    Ev.query g kq ∈ (attemptLoop g exec ctx isFirst rem k ps).2 →
    exec kq = .err true →
    Ev.backoff g kq (base_delay * 2 ^ kq) ∈ (attemptLoop g exec ctx isFirst rem k ps).2 ∧
      (kq + 1 < k + rem → Ev.query g (kq + 1) ∈ (attemptLoop g exec ctx isFirst rem k ps).2) := by
  intro rem
  induction rem with
  | zero => intro k ps kq hq hx; simp [attemptLoop] at hq
  | succ rem ih =>
    intro k ps kq hq hx
    cases hek : exec k with
    | ok rows =>
      cases hpr : (procRows ctx isFirst rows ps).2 with
      | none =>
        rw [attemptLoop_step_ok_ok hek hpr] at hq ⊢
        rcases List.mem_cons.mp hq with heq | hq'
        · exfalso
          have : kq = k := by injection heq
          rw [this, hek] at hx
          simp at hx
        · obtain ⟨hb, hn⟩ := ih (k + 1) _ kq hq' hx
          refine ⟨by simp [hb], fun hlt => by
            have : kq + 1 < (k + 1) + rem := by omega
            simp [hn this]⟩
      | some e2 =>
        rw [attemptLoop_step_ok_err hek hpr] at hq
        rcases List.mem_cons.mp hq with heq | hq'
        · exfalso
          have : kq = k := by injection heq
          rw [this, hek] at hx
          simp at hx
        · simp at hq'
    | badFormed =>
      rw [attemptLoop_step_bad hek] at hq
      rcases List.mem_cons.mp hq with heq | hq'
      · exfalso
        have : kq = k := by injection heq
        rw [this, hek] at hx
        simp at hx
      · simp at hq'
    | err c429 =>
      cases c429 with
      | true =>
        rw [attemptLoop_step_429 hek] at hq ⊢
        rcases List.mem_cons.mp hq with heq | hq'
        · have hkqk : kq = k := by injection heq
          subst hkqk
          refine ⟨by simp, fun hlt => ?_⟩
          have hrem : 0 < rem := by omega
          obtain ⟨rem', rfl⟩ : ∃ rem', rem = rem' + 1 := ⟨rem - 1, by omega⟩
          have := attemptLoop_head_query g exec ctx isFirst rem' (kq + 1)
            ps
          simp [this]
        · rcases List.mem_cons.mp hq' with heq2 | hq2
          · exact absurd heq2 (by simp)
          · obtain ⟨hb, hn⟩ := ih (k + 1) ps kq hq2 hx
            refine ⟨by simp [hb], fun hlt => by
              have : kq + 1 < (k + 1) + rem := by omega
              simp [hn this]⟩
      | false =>
        rw [attemptLoop_step_errf hek] at hq
        rcases List.mem_cons.mp hq with heq | hq'
        · exfalso
          have : kq = k := by injection heq
          rw [this, hek] at hx
          simp at hx
        · simp at hq'

/-- A `QueryBadFormed` at a reached attempt `kq` ends the group immediately:
no later attempt is queried and no backoff at or after `kq` happens. -/
theorem attemptLoop_badFormed (g : Nat) (exec : Nat → QueryOutcome) (ctx : Ctx)
    (isFirst : Bool) : ∀ (rem k : Nat) (ps : PassState) (kq : Nat),
    Ev.query g kq ∈ (attemptLoop g exec ctx isFirst rem k ps).2 →
    exec kq = .badFormed →
    (∀ j, kq < j → Ev.query g j ∉ (attemptLoop g exec ctx isFirst rem k ps).2) ∧
      (∀ j d, kq ≤ j → Ev.backoff g j d ∉ (attemptLoop g exec ctx isFirst rem k ps).2) := by
  intro rem
  induction rem with
  | zero => intro k ps kq hq hx; simp [attemptLoop] at hq
  | succ rem ih =>
    intro k ps kq hq hx
    cases hek : exec k with
    | ok rows =>
      cases hpr : (procRows ctx isFirst rows ps).2 with
      | none =>
        rw [attemptLoop_step_ok_ok hek hpr] at hq ⊢
        have hkqk : kq ≠ k := by
          intro h
          rw [h, hek] at hx
          simp at hx
        have hq' : Ev.query g kq ∈
            (attemptLoop g exec ctx isFirst rem (k + 1)
              (procRows ctx isFirst rows ps).1).2 := by
          rcases List.mem_cons.mp hq with heq | hq''
          · exact absurd (by injection heq) hkqk
          · exact hq''
        have hklow : k + 1 ≤ kq := by
          obtain ⟨kq2, h1, h2, hsh⟩ := attemptLoop_trace_shape g exec ctx isFirst
            rem (k + 1) _ _ hq'
          rcases hsh with hshq | ⟨d, hshq⟩
          · have : kq2 = kq := by injection hshq.symm
            omega
          · exact absurd hshq (by simp)
        obtain ⟨hnq, hnb⟩ := ih (k + 1) _ kq hq' hx
        constructor
        · intro j hj
          intro hmem
          rcases List.mem_cons.mp hmem with heq | hmem'
          · have : j = k := by injection heq
            omega
          · exact hnq j hj hmem'
        · intro j d hj hmem
          rcases List.mem_cons.mp hmem with heq | hmem'
          · exact absurd heq (by simp)
          · exact hnb j d hj hmem'
      | some e2 =>
        rw [attemptLoop_step_ok_err hek hpr] at hq ⊢
        rcases List.mem_cons.mp hq with heq | hq'
        · exfalso
          have : kq = k := by injection heq
          rw [this, hek] at hx
          simp at hx
        · simp at hq'
    | badFormed =>
      rw [attemptLoop_step_bad hek] at hq ⊢
      rcases List.mem_cons.mp hq with heq | hq'
      · have hkqk : kq = k := by injection heq
        subst hkqk
        constructor
        · intro j hj hmem
          rcases List.mem_cons.mp hmem with heq2 | hmem'
          · have : j = kq := by injection heq2
            omega
          · simp at hmem'
        · intro j d hj hmem
          rcases List.mem_cons.mp hmem with heq2 | hmem'
          · exact absurd heq2 (by simp)
          · simp at hmem'
      · simp at hq'
    | err c429 =>
      cases c429 with
      | true =>
        rw [attemptLoop_step_429 hek] at hq ⊢
        have hkqk : kq ≠ k := by
          intro h
          rw [h, hek] at hx
          simp at hx
        have hq' : Ev.query g kq ∈
            (attemptLoop g exec ctx isFirst rem (k + 1) ps).2 := by
          rcases List.mem_cons.mp hq with heq | hq''
          · exact absurd (by injection heq) hkqk
          · rcases List.mem_cons.mp hq'' with heq2 | hq3
            · exact absurd heq2 (by simp)
            · exact hq3
        have hklow : k + 1 ≤ kq := by
          obtain ⟨kq2, h1, h2, hsh⟩ := attemptLoop_trace_shape g exec ctx isFirst
            rem (k + 1) _ _ hq'
          rcases hsh with hshq | ⟨d, hshq⟩
          · have : kq2 = kq := by injection hshq.symm
            omega
          · exact absurd hshq (by simp)
        obtain ⟨hnq, hnb⟩ := ih (k + 1) ps kq hq' hx
        constructor
        · intro j hj hmem
          rcases List.mem_cons.mp hmem with heq | hmem'
          · have : j = k := by injection heq
            omega
          · rcases List.mem_cons.mp hmem' with heq2 | hmem2
            · exact absurd heq2 (by simp)
            · exact hnq j hj hmem2
        · intro j d hj hmem
          rcases List.mem_cons.mp hmem with heq | hmem'
          · exact absurd heq (by simp)
          · rcases List.mem_cons.mp hmem' with heq2 | hmem2
            · have hjk : j = k ∧ d = base_delay * 2 ^ k := by
                constructor <;> injection heq2 <;> simp_all
              omega
            · exact hnb j d hj hmem2
      | false =>
        rw [attemptLoop_step_errf hek] at hq ⊢
        rcases List.mem_cons.mp hq with heq | hq'
        · exfalso
          have : kq = k := by injection heq
          rw [this, hek] at hx
          simp at hx
        · simp at hq'

/-- Any other error at a reached attempt `kq` abandons the remaining
attempts of this group: no later attempt is queried. -/
theorem attemptLoop_errOther (g : Nat) (exec : Nat → QueryOutcome) (ctx : Ctx)
    (isFirst : Bool) : ∀ (rem k : Nat) (ps : PassState) (kq : Nat),
    Ev.query g kq ∈ (attemptLoop g exec ctx isFirst rem k ps).2 →
    exec kq = .err false →
    ∀ j, kq < j → Ev.query g j ∉ (attemptLoop g exec ctx isFirst rem k ps).2 := by
  intro rem
  induction rem with
  | zero => intro k ps kq hq hx; simp [attemptLoop] at hq
  | succ rem ih =>
    intro k ps kq hq hx
    cases hek : exec k with
    | ok rows =>
      cases hpr : (procRows ctx isFirst rows ps).2 with
      | none =>
        rw [attemptLoop_step_ok_ok hek hpr] at hq ⊢
        have hkqk : kq ≠ k := by
          intro h
          rw [h, hek] at hx
          simp at hx
        have hq' : Ev.query g kq ∈
            (attemptLoop g exec ctx isFirst rem (k + 1)
              (procRows ctx isFirst rows ps).1).2 := by
          rcases List.mem_cons.mp hq with heq | hq''
          · exact absurd (by injection heq) hkqk
          · exact hq''
        have hklow : k + 1 ≤ kq := by
          obtain ⟨kq2, h1, h2, hsh⟩ := attemptLoop_trace_shape g exec ctx isFirst
            rem (k + 1) _ _ hq'
          rcases hsh with hshq | ⟨d, hshq⟩
          · have : kq2 = kq := by injection hshq.symm
            omega
          · exact absurd hshq (by simp)
        intro j hj hmem
        rcases List.mem_cons.mp hmem with heq | hmem'
        · have : j = k := by injection heq
          omega
        · exact ih (k + 1) _ kq hq' hx j hj hmem'
      | some e2 =>
        rw [attemptLoop_step_ok_err hek hpr] at hq ⊢
        rcases List.mem_cons.mp hq with heq | hq'
        · have hkqk : kq = k := by injection heq
          subst hkqk
          intro j hj hmem
          rcases List.mem_cons.mp hmem with heq2 | hmem'
          · have : j = kq := by injection heq2
            omega
          · simp at hmem'
        · simp at hq'
    | badFormed =>
      rw [attemptLoop_step_bad hek] at hq ⊢
      rcases List.mem_cons.mp hq with heq | hq'
      · exfalso
        have : kq = k := by injection heq
        rw [this, hek] at hx
        simp at hx
      · simp at hq'
    | err c429 =>
      cases c429 with
      | true =>
        rw [attemptLoop_step_429 hek] at hq ⊢
        have hkqk : kq ≠ k := by
          intro h
          rw [h, hek] at hx
          simp at hx
        have hq' : Ev.query g kq ∈
            (attemptLoop g exec ctx isFirst rem (k + 1) ps).2 := by
          rcases List.mem_cons.mp hq with heq | hq''
          · exact absurd (by injection heq) hkqk
          · rcases List.mem_cons.mp hq'' with heq2 | hq3
            · exact absurd heq2 (by simp)
            · exact hq3
        have hklow : k + 1 ≤ kq := by
          obtain ⟨kq2, h1, h2, hsh⟩ := attemptLoop_trace_shape g exec ctx isFirst
            rem (k + 1) _ _ hq'
          rcases hsh with hshq | ⟨d, hshq⟩
          · have : kq2 = kq := by injection hshq.symm
            omega
          · exact absurd hshq (by simp)
        intro j hj hmem
        rcases List.mem_cons.mp hmem with heq | hmem'
        · have : j = k := by injection heq
          omega
        · rcases List.mem_cons.mp hmem' with heq2 | hmem2
          · exact absurd heq2 (by simp)
          · exact ih (k + 1) ps kq hq' hx j hj hmem2
      | false =>
        rw [attemptLoop_step_errf hek] at hq ⊢
        rcases List.mem_cons.mp hq with heq | hq'
        · have hkqk : kq = k := by injection heq
          subst hkqk
          intro j hj hmem
          rcases List.mem_cons.mp hmem with heq2 | hmem'
          · have : j = kq := by injection heq2
            omega
          · simp at hmem'
        · simp at hq'

def attrBatch0 : List String := ["gender", "occupation", "ethnic_group", "field_of_work", "member_of"]

def attrBatch1 : List String := ["manner_of_death", "cause_of_death", "handedness", "convicted_of", "award_received"]

def attrBatch2 : List String := ["native_language", "political_ideology", "honorific_prefix", "religion_or_worldview", "medical_condition"]

def attrBatch3 : List String := ["conflict", "educated_at", "academic_degree", "social_classification", "position_held"]

theorem chunk_optional_fields_eq :
    chunk_optional_fields OPTIONAL_FIELD_BATCH_SIZE =
      [attrBatch0, attrBatch1, attrBatch2, attrBatch3] := by decide

theorem groupsLoop_cons_free (titles : List String) (execG : Nat → Nat → QueryOutcome)
    (ctx : Ctx) (batch : List String) (rest : List (List String)) (g : Nat)
    (ql : QLockState) (ps : PassState)
    (h : (titles, batch, decide (g = 0)) ∉ ql.held) :
    groupsLoop titles execG ctx (batch :: rest) g ql ps =
      { state := (groupsLoop titles execG ctx rest (g + 1)
          ⟨(titles, batch, decide (g = 0)) :: ql.held⟩
          (attemptLoop g (execG g) ctx (decide (g = 0)) max_retries 0 ps).1).state
        qlocks := (groupsLoop titles execG ctx rest (g + 1)
          ⟨(titles, batch, decide (g = 0)) :: ql.held⟩
          (attemptLoop g (execG g) ctx (decide (g = 0)) max_retries 0 ps).1).qlocks
        trace := (attemptLoop g (execG g) ctx (decide (g = 0)) max_retries 0 ps).2 ++
          (groupsLoop titles execG ctx rest (g + 1)
            ⟨(titles, batch, decide (g = 0)) :: ql.held⟩
            (attemptLoop g (execG g) ctx (decide (g = 0)) max_retries 0 ps).1).trace
        early := (groupsLoop titles execG ctx rest (g + 1)
          ⟨(titles, batch, decide (g = 0)) :: ql.held⟩
          (attemptLoop g (execG g) ctx (decide (g = 0)) max_retries 0 ps).1).early } := by
  rw [groupsLoop]
  simp [qTryAcquire, h]

/-- From a free query-lock window, all four attribute groups acquire their
locks (the four query keys are pairwise distinct), so the pass performs no
early return. -/
theorem groupsLoop_not_early (titles : List String) (execG : Nat → Nat → QueryOutcome)
    (ctx : Ctx) (ps : PassState) :
    (groupsLoop titles execG ctx [attrBatch0, attrBatch1, attrBatch2, attrBatch3]
      0 ⟨[]⟩ ps).early = false := by
  rw [groupsLoop_cons_free titles execG ctx attrBatch0 _ 0 ⟨[]⟩ ps (by simp)]
  rw [groupsLoop_cons_free titles execG ctx attrBatch1 _ 1 _ _ (by simp)]
  rw [groupsLoop_cons_free titles execG ctx attrBatch2 _ 2 _ _
    (by simp [attrBatch1, attrBatch2])]
  rw [groupsLoop_cons_free titles execG ctx attrBatch3 _ 3 _ _
    (by simp [attrBatch1, attrBatch2, attrBatch3])]
  rfl

/-- With the task lock acquired and a free query-lock window, the pass
always reaches the bulk-write transaction, whatever the query outcomes were:
whatever a group accumulated before erring is still passed to the write
phase. -/
theorem pass_reaches_tx (t : Int) (titles : List String)
    (execG : Nat → Nat → QueryOutcome) (store0 : Store) :
    Ev.txAttempt ∈ (get_human_details t titles execG store0 true ⟨[]⟩).2 := by
  rw [get_human_details]
  simp only [Bool.not_true, Bool.false_eq_true, if_false, chunk_optional_fields_eq]
  rw [groupsLoop_not_early]
  simp only [Bool.false_eq_true, if_false]
  cases hb : bulkWrite t (groupsLoop titles execG (mkCtx t store0)
      [attrBatch0, attrBatch1, attrBatch2, attrBatch3] 0 ⟨[]⟩
      ⟨store0, [], [], [], []⟩).state <;> simp

/-- With the task lock acquired and a free query-lock window the pass
always reaches the bulk-write transaction carrying the accumulated partial
state, and the final store is exactly the transaction's dichotomy: the
committed store when the body succeeds, the parse-phase store (none of the
accumulated dict results written) when it raises. -/
theorem pass_tx_outcome (t : Int) (titles : List String)
    (execG : Nat → Nat → QueryOutcome) (store0 : Store) :
    Ev.txAttempt ∈ (get_human_details t titles execG store0 true ⟨[]⟩).2 ∧
    ((∃ s2, bulkWrite t (groupsLoop titles execG (mkCtx t store0)
        (chunk_optional_fields OPTIONAL_FIELD_BATCH_SIZE) 0 ⟨[]⟩
        ⟨store0, [], [], [], []⟩).state = .ok s2 ∧
      (get_human_details t titles execG store0 true ⟨[]⟩).1 = s2) ∨
     ((∃ e, bulkWrite t (groupsLoop titles execG (mkCtx t store0)
        (chunk_optional_fields OPTIONAL_FIELD_BATCH_SIZE) 0 ⟨[]⟩
        ⟨store0, [], [], [], []⟩).state = .error e) ∧
      (get_human_details t titles execG store0 true ⟨[]⟩).1 =
        (groupsLoop titles execG (mkCtx t store0)
          (chunk_optional_fields OPTIONAL_FIELD_BATCH_SIZE) 0 ⟨[]⟩
          ⟨store0, [], [], [], []⟩).state.store)) := by
  rw [get_human_details]
  simp only [Bool.not_true, Bool.false_eq_true, if_false, chunk_optional_fields_eq]
  rw [groupsLoop_not_early]
  simp only [Bool.false_eq_true, if_false]
  cases hb : bulkWrite t (groupsLoop titles execG (mkCtx t store0)
      [attrBatch0, attrBatch1, attrBatch2, attrBatch3] 0 ⟨[]⟩
      ⟨store0, [], [], [], []⟩).state with
  | ok s2 => exact ⟨by simp, Or.inl ⟨s2, rfl, rfl⟩⟩
  | error e => exact ⟨by simp, Or.inr ⟨⟨e, rfl⟩, rfl⟩⟩

def c7x_store : Store := ⟨[], [], [], []⟩

def c7x_row : Binding :=
  [("item", "http://www.wikidata.org/entity/Q6"), ("itemLabel", "Frank"),
   ("manner_of_death", "Q3739104||natural causes")]

def c7x_exec : Nat → Nat → QueryOutcome :=
  fun g _ => if g = 1 then .ok [c7x_row] else .err false

/-- **C7 counterexample.**  The claim says that on a non-429,
non-`QueryBadFormed` error only the failing group's remaining attempts are
abandoned "and partial results accumulated from already-succeeded groups are
still written".  Concretely: group 0 (the core group) fails with a generic
error, group 1 succeeds and sights the new human Q6 — its `human_data` dict
therefore lacks the core keys set only while processing the first group.
Inside the transaction `human_data["wikipedia_url"]` (tasks.py 347) raises
`KeyError`, rolling back every bulk write: the succeeded group's accumulated
results (human Q6, attribute Q3739104, their association) are NOT written,
and the final store is unchanged. -/
theorem C7_counterexample :
    c7x_exec 0 0 = .err false ∧
    Ev.query 1 0 ∈ (get_human_details 10000 ["T"] c7x_exec c7x_store true ⟨[]⟩).2 ∧
    (groupsLoop ["T"] c7x_exec (mkCtx 10000 c7x_store)
      (chunk_optional_fields OPTIONAL_FIELD_BATCH_SIZE) 0 ⟨[]⟩
      ⟨c7x_store, [], [], [], []⟩).state.humans_to_create ≠ [] ∧
    Ev.txFail ∈ (get_human_details 10000 ["T"] c7x_exec c7x_store true ⟨[]⟩).2 ∧
    (get_human_details 10000 ["T"] c7x_exec c7x_store true ⟨[]⟩).1 = c7x_store := by
  refine ⟨by decide, by decide, by decide, by decide, by decide⟩

/-- **C7 (amended).**  For every query group: any queried attempt has index
below `max_retries = 5`; a rate-limit signal (`"429"`) at attempt `k` is
followed by a backoff sleep of `base_delay * 2 ** k` seconds and, when
attempts remain, by the next attempt of the same query; a `QueryBadFormed`
aborts the group immediately (no later attempt, no backoff at or after it);
any other error abandons only the remaining attempts of that group.  The
pass always proceeds to the bulk-write transaction with the accumulated
partial results, but those are written only when the transaction body
succeeds: the final store is the committed store on success, and the
parse-phase store — none of the accumulated dict results written — when the
transaction raises (as it does whenever a sighted human's data lacks the
first group's core fields, e.g. because the first group itself failed). -/
theorem C7_retry_policy :
    (∀ (g : Nat) (exec : Nat → QueryOutcome) (ctx : Ctx) (isFirst : Bool)
        (ps : PassState) (k : Nat),
      Ev.query g k ∈ (attemptLoop g exec ctx isFirst max_retries 0 ps).2 →
      (k < max_retries) ∧
      (exec k = .err true →
        Ev.backoff g k (base_delay * 2 ^ k) ∈
          (attemptLoop g exec ctx isFirst max_retries 0 ps).2 ∧
        (k + 1 < max_retries →
          Ev.query g (k + 1) ∈ (attemptLoop g exec ctx isFirst max_retries 0 ps).2)) ∧
      (exec k = .badFormed →
        (∀ j, k < j →
          Ev.query g j ∉ (attemptLoop g exec ctx isFirst max_retries 0 ps).2) ∧
        (∀ j d, k ≤ j →
          Ev.backoff g j d ∉ (attemptLoop g exec ctx isFirst max_retries 0 ps).2)) ∧
      (exec k = .err false →
        ∀ j, k < j →
          Ev.query g j ∉ (attemptLoop g exec ctx isFirst max_retries 0 ps).2)) ∧
    (∀ (t : Int) (titles : List String) (execG : Nat → Nat → QueryOutcome)
        (store0 : Store),
      Ev.txAttempt ∈ (get_human_details t titles execG store0 true ⟨[]⟩).2 ∧
      ((∃ s2, bulkWrite t (groupsLoop titles execG (mkCtx t store0)
          (chunk_optional_fields OPTIONAL_FIELD_BATCH_SIZE) 0 ⟨[]⟩
          ⟨store0, [], [], [], []⟩).state = .ok s2 ∧
        (get_human_details t titles execG store0 true ⟨[]⟩).1 = s2) ∨
       ((∃ e, bulkWrite t (groupsLoop titles execG (mkCtx t store0)
          (chunk_optional_fields OPTIONAL_FIELD_BATCH_SIZE) 0 ⟨[]⟩
          ⟨store0, [], [], [], []⟩).state = .error e) ∧
        (get_human_details t titles execG store0 true ⟨[]⟩).1 =
          (groupsLoop titles execG (mkCtx t store0)
            (chunk_optional_fields OPTIONAL_FIELD_BATCH_SIZE) 0 ⟨[]⟩
            ⟨store0, [], [], [], []⟩).state.store))) := by
  constructor
  · intro g exec ctx isFirst ps k hq
    refine ⟨?_, ?_, ?_, ?_⟩
    · obtain ⟨kq, h1, h2, hsh⟩ :=
        attemptLoop_trace_shape g exec ctx isFirst max_retries 0 ps _ hq
      rcases hsh with hshq | ⟨d, hshq⟩
      · have : k = kq := by injection hshq
        omega
      · exact absurd hshq (by simp)
    · intro hx
      have h := attemptLoop_429 g exec ctx isFirst max_retries 0 ps k hq hx
      exact ⟨h.1, fun hlt => h.2 (by omega)⟩
    · intro hx
      exact attemptLoop_badFormed g exec ctx isFirst max_retries 0 ps k hq hx
    · intro hx
      exact attemptLoop_errOther g exec ctx isFirst max_retries 0 ps k hq hx
  · exact pass_tx_outcome

def c7_exec : Nat → QueryOutcome := fun k => if k = 0 then .err true else .badFormed

/-- Witness for C7: a rate-limited first attempt backs off for
`base_delay * 2 ** 0 = 2` seconds, and a concrete pass reaches the
transaction. -/
theorem C7_retry_policy_witness :
    Ev.backoff 0 0 (base_delay * 2 ^ 0) ∈
      (attemptLoop 0 c7_exec ctxE false max_retries 0 psE).2 ∧
    Ev.txAttempt ∈ (get_human_details 10000 ["T"] c10_exec c10_store true ⟨[]⟩).2 := by
  constructor
  · exact ((C7_retry_policy.1 0 c7_exec ctxE false psE 0 (by decide)).2.1 (by decide)).1
  · exact (C7_retry_policy.2 10000 ["T"] c10_exec c10_store).1

/-! ## Claim C2: writes and the transaction boundary -/

theorem groupsLoop_cons_blocked (titles : List String) (execG : Nat → Nat → QueryOutcome)
    (ctx : Ctx) (batch : List String) (rest : List (List String)) (g : Nat)
    (ql : QLockState) (ps : PassState)
    (h : (titles, batch, decide (g = 0)) ∈ ql.held) :
    groupsLoop titles execG ctx (batch :: rest) g ql ps =
      ⟨ps, ql, [.earlyReturn g], true⟩ := by
  rw [groupsLoop]
  simp [qTryAcquire, h]

/-- The parse phase emits only query, backoff and early-return events; in
particular no transaction event. -/
theorem groupsLoop_no_txFail (titles : List String) (execG : Nat → Nat → QueryOutcome)
    (ctx : Ctx) : ∀ (batches : List (List String)) (g : Nat) (ql : QLockState)
    (ps : PassState), Ev.txFail ∉ (groupsLoop titles execG ctx batches g ql ps).trace := by
  intro batches
  induction batches with
  | nil => intro g ql ps h; simp [groupsLoop] at h
  | cons batch rest ih =>
    intro g ql ps h
    by_cases hk : (titles, batch, decide (g = 0)) ∈ ql.held
    · rw [groupsLoop_cons_blocked titles execG ctx batch rest g ql ps hk] at h
      simp at h
    · rw [groupsLoop_cons_free titles execG ctx batch rest g ql ps hk] at h
      rcases List.mem_append.mp h with h1 | h2
      · obtain ⟨kq, _, _, hsh⟩ := attemptLoop_trace_shape g (execG g) ctx
          (decide (g = 0)) max_retries 0 _ _ h1
        rcases hsh with hq | ⟨d, hq⟩ <;> simp at hq
      · exact ih (g + 1) _ _ h2

/-- **C2 counterexample.**  The claim says every store write of a batch
happens inside the batch's single transaction and that nothing persists if
the transaction fails.  Concretely: the store holds attribute Q777 with
label "Old"; the first query group fails (so the newly sighted human Q5 has
no core data), a later group sees Q5 with Q777 relabeled "New".  The
attribute row is saved immediately during parsing; the transaction then
fails (`KeyError` on the core-less `human_data`), yet the final store
retains the relabeled attribute: a write persisted although the batch's
transaction failed. -/
def c2_attr : AttrRow := ⟨"Q777", "Old", "award_received", 0⟩

def c2_store : Store := ⟨[], [], [c2_attr], []⟩

def c2_row : Binding :=
  [("item", "http://www.wikidata.org/entity/Q5"), ("itemLabel", "Eve"),
   ("award_received", "Q777||New")]

def c2_exec : Nat → Nat → QueryOutcome := fun g _ => if g = 1 then .ok [c2_row] else .err false

theorem C2_counterexample :
    Ev.txFail ∈ (get_human_details 10000 ["T"] c2_exec c2_store true ⟨[]⟩).2 ∧
    findAttr (get_human_details 10000 ["T"] c2_exec c2_store true ⟨[]⟩).1 "Q777" =
      some ⟨"Q777", "New", "award_received", 10000⟩ ∧
    (get_human_details 10000 ["T"] c2_exec c2_store true ⟨[]⟩).1 ≠ c2_store := by
  refine ⟨by decide, by decide, by decide⟩

/-- **C2 (amended).**  The bulk writes (creations of places, attributes and
humans, the association inserts and the human field updates) all occur
inside the batch's single transaction: when that transaction fails, the
error is caught (the task returns normally, logging `txFail`) and none of
the bulk writes persist — the resulting store is exactly the parse-phase
store.  However, updates to existing Place and Attribute rows are saved
individually during parsing, outside the transaction, and are part of that
parse-phase store, so they persist even when the transaction fails. -/
theorem C2_tx_boundary (t : Int) (titles : List String)
    (execG : Nat → Nat → QueryOutcome) (store0 : Store) (tl : Bool) (ql : QLockState)
    (hfail : Ev.txFail ∈ (get_human_details t titles execG store0 tl ql).2) :
    (get_human_details t titles execG store0 tl ql).1 =
      (groupsLoop titles execG (mkCtx t store0)
        (chunk_optional_fields OPTIONAL_FIELD_BATCH_SIZE) 0 ql
        ⟨store0, [], [], [], []⟩).state.store ∧
    ∃ e, bulkWrite t (groupsLoop titles execG (mkCtx t store0)
        (chunk_optional_fields OPTIONAL_FIELD_BATCH_SIZE) 0 ql
        ⟨store0, [], [], [], []⟩).state = .error e := by
  cases tl with
  | false => rw [get_human_details] at hfail; simp at hfail
  | true =>
    rw [get_human_details] at hfail ⊢
    simp only [Bool.not_true, not_true, Bool.false_eq_true, if_false] at hfail ⊢
    revert hfail
    cases he : (groupsLoop titles execG (mkCtx t store0)
        (chunk_optional_fields OPTIONAL_FIELD_BATCH_SIZE) 0 ql
        ⟨store0, [], [], [], []⟩).early with
    | true =>
      intro hfail
      simp only [if_true] at hfail
      exact absurd hfail (groupsLoop_no_txFail titles execG (mkCtx t store0) _ 0 ql _)
    | false =>
      cases hb : bulkWrite t (groupsLoop titles execG (mkCtx t store0)
          (chunk_optional_fields OPTIONAL_FIELD_BATCH_SIZE) 0 ql
          ⟨store0, [], [], [], []⟩).state with
      | ok s2 =>
        intro hfail
        simp only [Bool.false_eq_true, if_false] at hfail
        rcases List.mem_append.mp hfail with h1 | h2
        · exact absurd h1 (groupsLoop_no_txFail titles execG (mkCtx t store0) _ 0 ql _)
        · simp at h2
      | error e =>
        intro hfail
        simp only [Bool.false_eq_true, if_false]
        exact ⟨trivial, e, rfl⟩

/-- Witness for C2 (amended) at the concrete failing scenario. -/
theorem C2_tx_boundary_witness :
    (get_human_details 10000 ["T"] c2_exec c2_store true ⟨[]⟩).1 =
      (groupsLoop ["T"] c2_exec (mkCtx 10000 c2_store)
        (chunk_optional_fields OPTIONAL_FIELD_BATCH_SIZE) 0 ⟨[]⟩
        ⟨c2_store, [], [], [], []⟩).state.store := by
  exact (C2_tx_boundary 10000 ["T"] c2_exec c2_store true ⟨[]⟩ (by decide)).1

/-! ## Claim C1: the freshness window -/

/-- An in-place save keyed by `aid` leaves the lookup of any other id
unchanged. -/
theorem find?_map_upd {α : Type} (idOf : α → String) (l : List α) (aid wid : String)
    (f : α → α) (hf : ∀ a, idOf (f a) = idOf a) (hne : wid ≠ aid) :
    (l.map (fun a => if idOf a == aid then f a else a)).find? (fun a => idOf a == wid) =
      l.find? (fun a => idOf a == wid) := by
  induction l with
  | nil => rfl
  | cons a rest ih =>
    simp only [List.map_cons]
    by_cases ha : idOf a = aid
    · have hcond : (idOf a == aid) = true := beq_iff_eq.mpr ha
      have h1 : (idOf (f a) == wid) = false := by
        rw [hf a, ha]
        exact beq_eq_false_iff_ne.mpr (fun h => hne h.symm)
      have h2 : (idOf a == wid) = false := by
        rw [ha]
        exact beq_eq_false_iff_ne.mpr (fun h => hne h.symm)
      simp only [hcond, if_true, List.find?, h1, h2]
      exact ih
    · have hcond : (idOf a == aid) = false := beq_eq_false_iff_ne.mpr ha
      simp only [hcond, Bool.false_eq_true, if_false, List.find?]
      cases hw : (idOf a == wid) with
      | true => rfl
      | false => exact ih

/-- The store portion of the C1 invariant: the humans table is untouched by
the parse phase, and the rows of recent places and attributes read exactly
as at the start of the pass. -/
def StoreRP (ctx : Ctx) (s0 s : Store) : Prop :=
  s.humans = s0.humans ∧
  (∀ wid, wid ∈ ctx.recentPlaceIds → findPlace s wid = findPlace s0 wid) ∧
  (∀ wid, wid ∈ ctx.recentAttrIds → findAttr s wid = findAttr s0 wid)

/-- The C1 invariant over a pass state: the store portion plus the fact that
no recent human id (with the non-empty-id proviso of the truthiness guard)
ever enters the update or create dicts. -/
def RecentPreserved (ctx : Ctx) (s0 : Store) (ps : PassState) : Prop :=
  StoreRP ctx s0 ps.store ∧
  (∀ wid, wid ∈ ctx.recentHumanIds → wid ≠ "" →
    wid ∉ akeys ps.humans_to_update ∧ wid ∉ akeys ps.humans_to_create)

theorem StoreRP_saveAttr {ctx : Ctx} {s0 s : Store} (h : StoreRP ctx s0 s)
    (attr_id attr_label cat : String) (hrec : attr_id ∉ ctx.recentAttrIds) :
    StoreRP ctx s0 (saveAttr ctx attr_id attr_label cat s) := by
  obtain ⟨hh, hp, ha⟩ := h
  refine ⟨hh, hp, ?_⟩
  intro wid hw
  have hne : wid ≠ attr_id := fun he => hrec (he ▸ hw)
  unfold findAttr saveAttr
  rw [find?_map_upd (fun (a : AttrRow) => a.wikidata_id) s.attributes attr_id wid
    (fun a => { a with label := attr_label, category := cat, last_updated := ctx.t })
    (fun a => rfl) hne]
  exact ha wid hw

theorem StoreRP_savePlace {ctx : Ctx} {s0 s : Store} (h : StoreRP ctx s0 s)
    (pid : String) (pname : Option String) (coords : Option String × Option String)
    (hrec : pid ∉ ctx.recentPlaceIds) :
    StoreRP ctx s0 (savePlace ctx pid pname coords s) := by
  obtain ⟨hh, hp, ha⟩ := h
  refine ⟨hh, ?_, ha⟩
  intro wid hw
  have hne : wid ≠ pid := fun he => hrec (he ▸ hw)
  unfold findPlace savePlace
  rw [find?_map_upd (fun (p : PlaceRow) => p.wikidata_id) s.places pid wid
    (fun p => { p with name := pname, latitude := coords.1, longitude := coords.2, last_updated := ctx.t })
    (fun p => rfl) hne]
  exact hp wid hw

theorem procPair_pres (ctx : Ctx) (s0 : Store) (cat p : String)
    (st : PassState × List String) (h : RecentPreserved ctx s0 st.1) :
    RecentPreserved ctx s0 (procPair ctx cat p st).1.1 := by
  unfold procPair
  split
  · split
    · split
      · split
        · split
          · split
            · exact ⟨StoreRP_saveAttr h.1 _ _ cat (by assumption), h.2⟩
            · exact h
          · exact h
        · split
          · exact h
          · exact h
      · exact h
    · exact h
  · exact h

theorem procPairs_pres (ctx : Ctx) (s0 : Store) (cat : String) :
    ∀ (pairs : List String) (st : PassState × List String),
    RecentPreserved ctx s0 st.1 →
    RecentPreserved ctx s0 (procPairs ctx cat pairs st).1.1 := by
  intro pairs
  induction pairs with
  | nil => intro st h; exact h
  | cons p rest ih =>
    intro st h
    have hp := procPair_pres ctx s0 cat p st h
    rw [procPairs]
    cases hpr : procPair ctx cat p st with
    | mk r1 e? =>
      rw [hpr] at hp
      cases e? with
      | some e => simpa using hp
      | none =>
        simp only
        exact ih r1 (by simpa using hp)

theorem procChoice_pres (ctx : Ctx) (s0 : Store) (row : Binding) (choice : String)
    (st : PassState × List String) (h : RecentPreserved ctx s0 st.1) :
    RecentPreserved ctx s0 (procChoice ctx row choice st).1.1 := by
  unfold procChoice
  split
  · exact h
  · split
    · exact procPairs_pres ctx s0 choice _ st h
    · exact h

theorem procChoices_pres (ctx : Ctx) (s0 : Store) (row : Binding) :
    ∀ (choices : List String) (st : PassState × List String),
    RecentPreserved ctx s0 st.1 →
    RecentPreserved ctx s0 (procChoices ctx row choices st).1.1 := by
  intro choices
  induction choices with
  | nil => intro st h; exact h
  | cons c rest ih =>
    intro st h
    have hp := procChoice_pres ctx s0 row c st h
    rw [procChoices]
    cases hpr : procChoice ctx row c st with
    | mk r1 e? =>
      rw [hpr] at hp
      cases e? with
      | some e => simpa using hp
      | none =>
        simp only
        exact ih r1 (by simpa using hp)

theorem akeys_append {α : Type} (l : List (String × α)) (x : String × α) :
    akeys (l ++ [x]) = akeys l ++ [x.1] := by
  simp [akeys]

theorem mem_akeys_aset {α : Type} {l : List (String × α)} {k k' : String} {v : α}
    (h : k' ∈ akeys (aset l k v)) : k' ∈ akeys l ∨ k' = k := by
  unfold aset at h
  split at h
  · simp only [akeys, List.mem_map, List.map_map] at h
    obtain ⟨p, hp, he⟩ := h
    by_cases hk : (p.1 == k) = true
    · right
      simp only [Function.comp, hk, if_pos] at he
      exact he.symm
    · left
      simp only [Function.comp, hk, if_neg, Bool.false_eq_true, not_false_iff] at he
      exact he ▸ List.mem_map.mpr ⟨p, hp, rfl⟩
  · rw [akeys_append] at h
    rcases List.mem_append.mp h with h1 | h1
    · exact Or.inl h1
    · exact Or.inr (List.mem_singleton.mp h1)

theorem procRowDict_pres (ctx : Ctx) (s0 : Store) (wid nm : String)
    (core : Option HumanCore) (ids : List String) (ps1 : PassState)
    (hskip : wid = "" ∨ wid ∉ ctx.recentHumanIds)
    (h : RecentPreserved ctx s0 ps1) :
    RecentPreserved ctx s0 (procRowDict ctx wid nm core ids ps1) := by
  have hkey : ∀ wid', wid' ∈ ctx.recentHumanIds → wid' ≠ "" → wid' ≠ wid := by
    intro wid' hw hne he
    rcases hskip with h1 | h1
    · exact hne (he.trans h1)
    · exact h1 (he ▸ hw)
  unfold procRowDict
  split
  · split
    · refine ⟨h.1, ?_⟩
      intro wid' hw hne
      have hd := h.2 wid' hw hne
      refine ⟨?_, hd.2⟩
      rw [akeys_append]
      intro hmem
      rcases List.mem_append.mp hmem with h1 | h1
      · exact hd.1 h1
      · exact hkey wid' hw hne (List.mem_singleton.mp h1)
    · refine ⟨h.1, ?_⟩
      intro wid' hw hne
      have hd := h.2 wid' hw hne
      refine ⟨?_, hd.2⟩
      intro hmem
      rcases mem_akeys_aset hmem with h1 | h1
      · exact hd.1 h1
      · exact hkey wid' hw hne h1
  · split
    · refine ⟨h.1, ?_⟩
      intro wid' hw hne
      have hd := h.2 wid' hw hne
      refine ⟨hd.1, ?_⟩
      rw [akeys_append]
      intro hmem
      rcases List.mem_append.mp hmem with h1 | h1
      · exact hd.2 h1
      · exact hkey wid' hw hne (List.mem_singleton.mp h1)
    · exact h

theorem parsePlaceTriple_pres (ctx : Ctx) (s0 : Store) (row : Binding)
    (lk ik ck : String) (st : Store × List (String × PlaceRow))
    (h : StoreRP ctx s0 st.1) :
    StoreRP ctx s0 (parsePlaceTriple ctx row lk ik ck st).1 := by
  unfold parsePlaceTriple
  split
  · exact h
  · split
    · dsimp only
      split
      · split
        · split
          · exact StoreRP_savePlace h _ _ _ (by tauto)
          · exact h
        · exact h
      · split
        · exact h
        · exact h
    · exact h

theorem parse_and_update_pres (ctx : Ctx) (s0 : Store) (row : Binding)
    (store : Store) (h : StoreRP ctx s0 store) :
    StoreRP ctx s0 (parse_and_update ctx row store).1 := by
  unfold parse_and_update
  exact parsePlaceTriple_pres ctx s0 row _ _ _ _
    (parsePlaceTriple_pres ctx s0 row _ _ _ (store, []) h)

theorem procRowTail_pres (ctx : Ctx) (s0 : Store) (row : Binding)
    (wid nm : String) (core : Option HumanCore) (ps : PassState)
    (hskip : wid = "" ∨ wid ∉ ctx.recentHumanIds)
    (h : RecentPreserved ctx s0 ps) :
    RecentPreserved ctx s0 (procRowTail ctx row wid nm core ps).1 := by
  have hc := procChoices_pres ctx s0 row ATTRIBUTE_CHOICES (ps, []) h
  unfold procRowTail
  split
  · exact hc
  · exact procRowDict_pres ctx s0 wid nm core _ _ hskip hc

theorem procRow_pres (ctx : Ctx) (s0 : Store) (isFirst : Bool) (row : Binding)
    (ps : PassState) (h : RecentPreserved ctx s0 ps) :
    RecentPreserved ctx s0 (procRow ctx isFirst row ps).1 := by
  unfold procRow
  split
  · exact h
  · split
    · exact h
    · rename_i itemVal _ hskip0
      have hskip : pyLastSeg '/' itemVal = "" ∨
          pyLastSeg '/' itemVal ∉ ctx.recentHumanIds := by
        by_cases he : pyLastSeg '/' itemVal = ""
        · exact Or.inl he
        · exact Or.inr (fun hin => hskip0 ⟨he, hin⟩)
      split
      · exact h
      · split
        · split
          · exact h
          · split
            · exact h
            · refine procRowTail_pres ctx s0 row _ _ _ _ hskip ?_
              exact ⟨parse_and_update_pres ctx s0 row ps.store h.1, h.2⟩
        · exact procRowTail_pres ctx s0 row _ _ _ _ hskip h

theorem procRows_pres (ctx : Ctx) (s0 : Store) (isFirst : Bool) :
    ∀ (rows : List Binding) (ps : PassState),
    RecentPreserved ctx s0 ps →
    RecentPreserved ctx s0 (procRows ctx isFirst rows ps).1 := by
  intro rows
  induction rows with
  | nil => intro ps h; exact h
  | cons r rest ih =>
    intro ps h
    have hp := procRow_pres ctx s0 isFirst r ps h
    rw [procRows]
    cases hpr : procRow ctx isFirst r ps with
    | mk ps1 e? =>
      rw [hpr] at hp
      cases e? with
      | some e => simpa using hp
      | none =>
        simp only
        exact ih ps1 (by simpa using hp)

theorem attemptLoop_pres (ctx : Ctx) (s0 : Store) (g : Nat)
    (exec : Nat → QueryOutcome) (isFirst : Bool) :
    ∀ (rem k : Nat) (ps : PassState),
    RecentPreserved ctx s0 ps →
    RecentPreserved ctx s0 (attemptLoop g exec ctx isFirst rem k ps).1 := by
  intro rem
  induction rem with
  | zero => intro k ps h; exact h
  | succ rem ih =>
    intro k ps h
    cases he : exec k with
    | ok rows =>
      have hrp := procRows_pres ctx s0 isFirst rows ps h
      cases herr : (procRows ctx isFirst rows ps).2 with
      | none =>
        rw [attemptLoop_step_ok_ok he herr]
        exact ih (k + 1) _ hrp
      | some e =>
        rw [attemptLoop_step_ok_err he herr]
        exact hrp
    | badFormed =>
      rw [attemptLoop_step_bad he]
      exact h
    | err c429 =>
      cases c429 with
      | true =>
        rw [attemptLoop_step_429 he]
        exact ih (k + 1) ps h
      | false =>
        rw [attemptLoop_step_errf he]
        exact h

theorem groupsLoop_pres (titles : List String) (execG : Nat → Nat → QueryOutcome)
    (ctx : Ctx) (s0 : Store) :
    ∀ (batches : List (List String)) (g : Nat) (ql : QLockState) (ps : PassState),
    RecentPreserved ctx s0 ps →
    RecentPreserved ctx s0 (groupsLoop titles execG ctx batches g ql ps).state := by
  intro batches
  induction batches with
  | nil => intro g ql ps h; exact h
  | cons b rest ih =>
    intro g ql ps h
    rw [groupsLoop]
    dsimp only
    split
    · exact ih (g + 1) _ _
        (attemptLoop_pres ctx s0 g (execG g) (decide (g = 0)) max_retries 0 ps h)
    · exact h

theorem find?_append_of_some {α : Type} {p : α → Bool} {l1 : List α} {r : α}
    (l2 : List α) (h : l1.find? p = some r) : (l1 ++ l2).find? p = some r := by
  induction l1 with
  | nil => simp [List.find?] at h
  | cons a rest ih =>
    rw [List.cons_append]
    cases hp : p a with
    | true =>
      rw [List.find?_cons_of_pos _ hp] at h ⊢
      exact h
    | false =>
      rw [List.find?_cons_of_neg _ (by simp [hp])] at h ⊢
      exact ih h

theorem find?_bulkInsert {α : Type} (clash : α → α → Bool) {p : α → Bool} {r : α} :
    ∀ (xs : List α) (tbl : List α), tbl.find? p = some r →
    (bulkInsert clash tbl xs).find? p = some r := by
  intro xs
  induction xs with
  | nil => intro tbl h; exact h
  | cons x rest ih =>
    intro tbl h
    rw [bulkInsert, List.foldl_cons]
    refine ih _ ?_
    unfold insertIfAbsent
    split
    · exact h
    · exact find?_append_of_some [x] h

theorem find?_humanUpdates (t : Int) (places1 : List PlaceRow) (wid : String) :
    ∀ (updates : List (String × HumanData × HumanCore)) (tbl : List HumanRow),
    (∀ u ∈ updates, u.1 ≠ wid) →
    (updates.foldl (fun tbl u =>
        tbl.map (fun h =>
          if h.wikidata_id == u.1 then applyHumanUpdate t places1 u.2.1 u.2.2 h else h))
      tbl).find? (fun h => h.wikidata_id == wid)
    = tbl.find? (fun h => h.wikidata_id == wid) := by
  intro updates
  induction updates with
  | nil => intro tbl _; rfl
  | cons u rest ih =>
    intro tbl hne
    rw [List.foldl_cons, ih _ (fun v hv => hne v (List.mem_cons_of_mem u hv))]
    exact find?_map_upd (fun (h : HumanRow) => h.wikidata_id) tbl u.1 wid
      (fun h => applyHumanUpdate t places1 u.2.1 u.2.2 h) (fun h => rfl)
      (fun he => hne u (List.mem_cons_self u rest) he.symm)

/-- Any key of the update batch built inside the transaction comes from
`humans_to_update`. -/
theorem updates_key_mem (ps : PassState)
    (u : String × HumanData × HumanCore)
    (hu : u ∈ ps.humans_to_update.filterMap (fun p =>
      p.2.core.map (fun c => (p.1, p.2, c)))) :
    u.1 ∈ akeys ps.humans_to_update := by
  obtain ⟨p, hp, he⟩ := List.mem_filterMap.mp hu
  obtain ⟨c, _, he2⟩ := Option.map_eq_some'.mp he
  rw [← he2]
  exact List.mem_map.mpr ⟨p, hp, rfl⟩

/-- Rows surviving an `.ok` bulk write: any human, place or attribute row
still found under its id in the pass-state store (with recent human ids kept
out of both dicts) is found unchanged in the committed store. -/
theorem bulkWrite_pres (t : Int) (ctx : Ctx) (s0 : Store) (ps : PassState)
    (s2 : Store) (h : RecentPreserved ctx s0 ps) (hb : bulkWrite t ps = .ok s2) :
    (∀ wid r, wid ∈ ctx.recentHumanIds → wid ≠ "" →
      findHuman s0 wid = some r → findHuman s2 wid = some r) ∧
    (∀ wid r, wid ∈ ctx.recentPlaceIds →
      findPlace s0 wid = some r → findPlace s2 wid = some r) ∧
    (∀ wid r, wid ∈ ctx.recentAttrIds →
      findAttr s0 wid = some r → findAttr s2 wid = some r) := by
  unfold bulkWrite at hb
  split at hb
  · split at hb
    · rename_i hcreate hupdate
      have hs2 := (Except.ok.inj hb).symm
      refine ⟨?_, ?_, ?_⟩
      · intro wid r hw hne hfind
        have hps : findHuman ps.store wid = some r := by
          unfold findHuman
          rw [h.1.1]
          exact hfind
        rw [hs2]
        unfold findHuman
        dsimp only
        rw [find?_humanUpdates]
        · exact find?_bulkInsert humanClash _ _ hps
        · intro u hu he
          exact ((h.2 wid hw hne).1) (he ▸ updates_key_mem ps u hu)
      · intro wid r hw hfind
        have hps : findPlace ps.store wid = some r := (h.1.2.1 wid hw).trans hfind
        rw [hs2]
        unfold findPlace
        exact find?_bulkInsert placeClash _ _ hps
      · intro wid r hw hfind
        have hps : findAttr ps.store wid = some r := (h.1.2.2 wid hw).trans hfind
        rw [hs2]
        unfold findAttr
        exact find?_bulkInsert attrClash _ _ hps
    · exact absurd hb (by simp)
  · exact absurd hb (by simp)

theorem mem_recentHumanIds {t : Int} {s0 : Store} {wid : String} {r : HumanRow}
    (hfind : findHuman s0 wid = some r)
    (h1 : t - 120 ≤ r.last_wikidata_update) (h2 : r.last_wikidata_update < t - 60) :
    wid ∈ (mkCtx t s0).recentHumanIds := by
  unfold findHuman at hfind
  have hmem := List.mem_of_find?_eq_some hfind
  have hpr := List.find?_some hfind
  have hid : r.wikidata_id = wid := by simpa using hpr
  unfold mkCtx
  dsimp only
  exact hid ▸ List.mem_map.mpr
    ⟨r, List.mem_filter.mpr ⟨hmem, decide_eq_true ⟨h1, h2⟩⟩, rfl⟩

theorem mem_recentPlaceIds {t : Int} {s0 : Store} {wid : String} {r : PlaceRow}
    (hfind : findPlace s0 wid = some r) (h1 : t - 120 ≤ r.last_updated) :
    wid ∈ (mkCtx t s0).recentPlaceIds := by
  unfold findPlace at hfind
  have hmem := List.mem_of_find?_eq_some hfind
  have hpr := List.find?_some hfind
  have hid : r.wikidata_id = wid := by simpa using hpr
  unfold mkCtx
  dsimp only
  exact hid ▸ List.mem_map.mpr
    ⟨r, List.mem_filter.mpr ⟨hmem, decide_eq_true h1⟩, rfl⟩

theorem mem_recentAttrIds {t : Int} {s0 : Store} {wid : String} {r : AttrRow}
    (hfind : findAttr s0 wid = some r) (h1 : t - 120 ≤ r.last_updated) :
    wid ∈ (mkCtx t s0).recentAttrIds := by
  unfold findAttr at hfind
  have hmem := List.mem_of_find?_eq_some hfind
  have hpr := List.find?_some hfind
  have hid : r.wikidata_id = wid := by simpa using hpr
  unfold mkCtx
  dsimp only
  exact hid ▸ List.mem_map.mpr
    ⟨r, List.mem_filter.mpr ⟨hmem, decide_eq_true h1⟩, rfl⟩

theorem RecentPreserved_init (ctx : Ctx) (store0 : Store) :
    RecentPreserved ctx store0 ⟨store0, [], [], [], []⟩ :=
  ⟨⟨rfl, fun _ _ => rfl, fun _ _ => rfl⟩,
   fun _ _ _ => ⟨List.not_mem_nil _, List.not_mem_nil _⟩⟩

/-- The final store of a pass that holds the task lock is either the
parse-phase store (early return or failed transaction) or the committed
result of its bulk write. -/
theorem get_human_details_out (t : Int) (titles : List String)
    (execG : Nat → Nat → QueryOutcome) (store0 : Store) (ql : QLockState) :
    (get_human_details t titles execG store0 true ql).1 =
      (groupsLoop titles execG (mkCtx t store0)
        (chunk_optional_fields OPTIONAL_FIELD_BATCH_SIZE) 0 ql
        ⟨store0, [], [], [], []⟩).state.store ∨
    bulkWrite t (groupsLoop titles execG (mkCtx t store0)
        (chunk_optional_fields OPTIONAL_FIELD_BATCH_SIZE) 0 ql
        ⟨store0, [], [], [], []⟩).state =
      .ok (get_human_details t titles execG store0 true ql).1 := by
  rw [get_human_details]
  simp only [Bool.not_true, not_true, Bool.false_eq_true, if_false]
  cases he : (groupsLoop titles execG (mkCtx t store0)
      (chunk_optional_fields OPTIONAL_FIELD_BATCH_SIZE) 0 ql
      ⟨store0, [], [], [], []⟩).early with
  | true => exact Or.inl rfl
  | false =>
    cases hb : bulkWrite t (groupsLoop titles execG (mkCtx t store0)
        (chunk_optional_fields OPTIONAL_FIELD_BATCH_SIZE) 0 ql
        ⟨store0, [], [], [], []⟩).state with
    | ok s2 => exact Or.inr rfl
    | error e => exact Or.inl rfl

/-- **C1 counterexample.**  The claim says a record whose freshness
timestamp lies in the recent window is never overwritten by the pass.  A
stored human with the empty wikidata id and `last_wikidata_update` inside
the window `[t-120, t-60)` defeats the guard `if wikidata_id and wikidata_id
in recently_updated_humans` (tasks.py 242-245): the empty string is falsy,
so the row is not skipped; a result row whose `item` URI ends in `/` yields
that empty id and the bulk update overwrites the recent row. -/
def c1_human : HumanRow :=
  ⟨"", "Old", "", none, false, none, false, none, none, 9910⟩

def c1_store : Store := ⟨[c1_human], [], [], []⟩

def c1_row : Binding := [("item", "http://x/"), ("itemLabel", "Ghost")]

def c1_exec : Nat → Nat → QueryOutcome :=
  fun g _ => if g = 0 then .ok [c1_row] else .err false

theorem C1_counterexample :
    (10000 : Int) - 120 ≤ c1_human.last_wikidata_update ∧
    c1_human.last_wikidata_update < (10000 : Int) - 60 ∧
    findHuman c1_store "" = some c1_human ∧
    findHuman (get_human_details 10000 ["T"] c1_exec c1_store true ⟨[]⟩).1 "" =
      some ⟨"", "Ghost", "", none, false, none, false, none, none, 10000⟩ ∧
    findHuman (get_human_details 10000 ["T"] c1_exec c1_store true ⟨[]⟩).1 "" ≠
      some c1_human := by
  refine ⟨by decide, by decide, by decide, by decide, by decide⟩

/-- **C1 (amended).**  A stored record found under a wikidata id at the
start of the pass is never overwritten by that pass provided its freshness
timestamp is in the record kind's recent window — `[t-120, t-60)` for
humans, `[t-120, ∞)` for places and attributes — and, for humans, the id is
non-empty (the truthiness guard).  This holds whether the pass ends early,
commits its transaction, or rolls it back. -/
theorem C1_freshness_window (t : Int) (titles : List String)
    (execG : Nat → Nat → QueryOutcome) (store0 : Store) (tl : Bool)
    (ql : QLockState) (wid : String) :
    (∀ r, findHuman store0 wid = some r → wid ≠ "" →
      t - 120 ≤ r.last_wikidata_update → r.last_wikidata_update < t - 60 →
      findHuman (get_human_details t titles execG store0 tl ql).1 wid = some r) ∧
    (∀ r, findPlace store0 wid = some r → t - 120 ≤ r.last_updated →
      findPlace (get_human_details t titles execG store0 tl ql).1 wid = some r) ∧
    (∀ r, findAttr store0 wid = some r → t - 120 ≤ r.last_updated →
      findAttr (get_human_details t titles execG store0 tl ql).1 wid = some r) := by
  cases tl with
  | false =>
    rw [get_human_details]
    exact ⟨fun r h _ _ _ => h, fun r h _ => h, fun r h _ => h⟩
  | true =>
    have hinv : RecentPreserved (mkCtx t store0) store0
        (groupsLoop titles execG (mkCtx t store0)
          (chunk_optional_fields OPTIONAL_FIELD_BATCH_SIZE) 0 ql
          ⟨store0, [], [], [], []⟩).state :=
      groupsLoop_pres titles execG (mkCtx t store0) store0 _ 0 ql _
        (RecentPreserved_init (mkCtx t store0) store0)
    rcases get_human_details_out t titles execG store0 ql with hcase | hcase
    · refine ⟨?_, ?_, ?_⟩
      · intro r hf hne h1 h2
        rw [hcase]
        unfold findHuman
        rw [hinv.1.1]
        exact hf
      · intro r hf h1
        rw [hcase, hinv.1.2.1 wid (mem_recentPlaceIds hf h1)]
        exact hf
      · intro r hf h1
        rw [hcase, hinv.1.2.2 wid (mem_recentAttrIds hf h1)]
        exact hf
    · have hb := bulkWrite_pres t (mkCtx t store0) store0 _ _ hinv hcase
      exact ⟨fun r hf hne h1 h2 =>
          hb.1 wid r (mem_recentHumanIds hf h1 h2) hne
            (by unfold findHuman; rw [← hinv.1.1]; rw [hinv.1.1]; exact hf),
        fun r hf h1 => hb.2.1 wid r (mem_recentPlaceIds hf h1) hf,
        fun r hf h1 => hb.2.2 wid r (mem_recentAttrIds hf h1) hf⟩

def c1w_human : HumanRow :=
  ⟨"Q1", "Keep", "", none, false, none, false, none, none, 9910⟩

def c1w_place : PlaceRow := ⟨"P1", some "Town", none, none, 9990⟩

def c1w_attr : AttrRow := ⟨"A1", "Lab", "gender", 9990⟩

def c1w_store : Store := ⟨[c1w_human], [c1w_place], [c1w_attr], []⟩

def c1w_exec : Nat → Nat → QueryOutcome := fun _ _ => .ok []

theorem C1_freshness_window_witness :
    findHuman (get_human_details 10000 ["T"] c1w_exec c1w_store true ⟨[]⟩).1 "Q1" =
      some c1w_human ∧
    findPlace (get_human_details 10000 ["T"] c1w_exec c1w_store true ⟨[]⟩).1 "P1" =
      some c1w_place ∧
    findAttr (get_human_details 10000 ["T"] c1w_exec c1w_store true ⟨[]⟩).1 "A1" =
      some c1w_attr :=
  ⟨(C1_freshness_window 10000 ["T"] c1w_exec c1w_store true ⟨[]⟩ "Q1").1 c1w_human
      (by decide) (by decide) (by decide) (by decide),
   (C1_freshness_window 10000 ["T"] c1w_exec c1w_store true ⟨[]⟩ "P1").2.1 c1w_place
      (by decide) (by decide),
   (C1_freshness_window 10000 ["T"] c1w_exec c1w_store true ⟨[]⟩ "A1").2.2 c1w_attr
      (by decide) (by decide)⟩

theorem bulkInsert_append {α : Type} (clash : α → α → Bool) :
    ∀ (xs tbl : List α), ∃ extra, bulkInsert clash tbl xs = tbl ++ extra := by
  intro xs
  induction xs with
  | nil => intro tbl; exact ⟨[], by simp [bulkInsert]⟩
  | cons x rest ih =>
    intro tbl
    rw [bulkInsert, List.foldl_cons]
    obtain ⟨e, he⟩ := ih (insertIfAbsent clash tbl x)
    rw [bulkInsert] at he
    have hia : insertIfAbsent clash tbl x = tbl ∨ insertIfAbsent clash tbl x = tbl ++ [x] := by
      unfold insertIfAbsent
      split
      · exact Or.inl rfl
      · exact Or.inr rfl
    rcases hia with h1 | h1
    · exact ⟨e, by rw [he, h1]⟩
    · exact ⟨[x] ++ e, by rw [he, h1, List.append_assoc]⟩

theorem any_bulkInsert_of_any {α : Type} (clash : α → α → Bool) {tbl : List α}
    {x : α} (xs : List α) (h : tbl.any (clash x) = true) :
    (bulkInsert clash tbl xs).any (clash x) = true := by
  obtain ⟨e, he⟩ := bulkInsert_append clash xs tbl
  rw [he, List.any_append, h, Bool.true_or]

theorem any_bulkInsert_self {α : Type} (clash : α → α → Bool)
    (hrefl : ∀ x, clash x x = true) :
    ∀ (xs tbl : List α), ∀ x ∈ xs, (bulkInsert clash tbl xs).any (clash x) = true := by
  intro xs
  induction xs with
  | nil => intro tbl x hx; simp at hx
  | cons y rest ih =>
    intro tbl x hx
    rw [bulkInsert, List.foldl_cons]
    rcases List.mem_cons.mp hx with h1 | h1
    · subst h1
      refine any_bulkInsert_of_any clash rest ?_
      unfold insertIfAbsent
      split
      · assumption
      · rw [List.any_append]
        simp [hrefl]
    · exact ih (insertIfAbsent clash tbl y) x h1

theorem bulkInsert_eq_self {α : Type} (clash : α → α → Bool) :
    ∀ (xs tbl : List α), (∀ x ∈ xs, tbl.any (clash x) = true) →
    bulkInsert clash tbl xs = tbl := by
  intro xs
  induction xs with
  | nil => intro tbl _; rfl
  | cons x rest ih =>
    intro tbl h
    rw [bulkInsert, List.foldl_cons]
    have hins : insertIfAbsent clash tbl x = tbl := by
      unfold insertIfAbsent
      rw [if_pos (h x (List.mem_cons_self x rest))]
    rw [hins]
    exact ih tbl (fun y hy => h y (List.mem_cons_of_mem x hy))

theorem nodup_bulkInsert {α κ : Type} (pk : α → κ) (clash : α → α → Bool)
    (hdet : ∀ x y, pk x = pk y → clash x y = true) :
    ∀ (xs tbl : List α), (tbl.map pk).Nodup → ((bulkInsert clash tbl xs).map pk).Nodup := by
  intro xs
  induction xs with
  | nil => intro tbl h; exact h
  | cons x rest ih =>
    intro tbl h
    rw [bulkInsert, List.foldl_cons]
    refine ih (insertIfAbsent clash tbl x) ?_
    unfold insertIfAbsent
    split
    · exact h
    · rename_i hany
      have hnot : pk x ∉ tbl.map pk := by
        intro hmem
        obtain ⟨y, hy, he⟩ := List.mem_map.mp hmem
        exact hany (List.any_eq_true.mpr ⟨y, hy, hdet x y he.symm⟩)
      rw [List.map_append]
      exact List.Nodup.append h (List.nodup_singleton _)
        (fun a ha hb => hnot ((List.mem_singleton.mp hb) ▸ ha))

theorem foldl_map_maps {α β : Type} (g : β → α → α) :
    ∀ (us : List β) (tbl : List α),
    us.foldl (fun tbl u => tbl.map (g u)) tbl =
      tbl.map (fun a => us.foldl (fun a u => g u a) a) := by
  intro us
  induction us with
  | nil => intro tbl; simp
  | cons u rest ih =>
    intro tbl
    rw [List.foldl_cons, ih, List.map_map]
    rfl

theorem applyHumanUpdate_congr (t : Int) (places : List PlaceRow) (hd : HumanData)
    (c : HumanCore) {a b : HumanRow} (h : a.wikidata_id = b.wikidata_id) :
    applyHumanUpdate t places hd c a = applyHumanUpdate t places hd c b := by
  simp only [applyHumanUpdate]
  rw [h]

theorem humanChain_congr (t : Int) (places : List PlaceRow) :
    ∀ (us : List (String × HumanData × HumanCore)) (a b : HumanRow),
    a.wikidata_id = b.wikidata_id →
    (us.foldl (fun a u =>
        if a.wikidata_id == u.1 then applyHumanUpdate t places u.2.1 u.2.2 a else a) a =
      us.foldl (fun a u =>
        if a.wikidata_id == u.1 then applyHumanUpdate t places u.2.1 u.2.2 a else a) b ∨
     (us.foldl (fun a u =>
        if a.wikidata_id == u.1 then applyHumanUpdate t places u.2.1 u.2.2 a else a) a = a ∧
      us.foldl (fun a u =>
        if a.wikidata_id == u.1 then applyHumanUpdate t places u.2.1 u.2.2 a else a) b = b)) := by
  intro us
  induction us with
  | nil => intro a b h; exact Or.inr ⟨rfl, rfl⟩
  | cons u rest ih =>
    intro a b h
    rw [List.foldl_cons, List.foldl_cons]
    by_cases hk : a.wikidata_id = u.1
    · have ha : (a.wikidata_id == u.1) = true := beq_iff_eq.mpr hk
      have hbk : (b.wikidata_id == u.1) = true := beq_iff_eq.mpr (h ▸ hk)
      rw [if_pos ha, if_pos hbk,
        applyHumanUpdate_congr t places u.2.1 u.2.2 h]
      exact Or.inl rfl
    · have ha : ¬((a.wikidata_id == u.1) = true) := by
        simp only [beq_iff_eq]; exact hk
      have hbk : ¬((b.wikidata_id == u.1) = true) := by
        simp only [beq_iff_eq]; exact fun he => hk (h.trans he)
      rw [if_neg ha, if_neg hbk]
      exact ih a b h

theorem humanChain_pk (t : Int) (places : List PlaceRow) :
    ∀ (us : List (String × HumanData × HumanCore)) (a : HumanRow),
    (us.foldl (fun a u =>
        if a.wikidata_id == u.1 then applyHumanUpdate t places u.2.1 u.2.2 a else a)
      a).wikidata_id = a.wikidata_id := by
  intro us
  induction us with
  | nil => intro a; rfl
  | cons u rest ih =>
    intro a
    rw [List.foldl_cons, ih]
    split
    · rfl
    · rfl

theorem humanChain_idem (t : Int) (places : List PlaceRow)
    (us : List (String × HumanData × HumanCore)) (a : HumanRow) :
    us.foldl (fun a u =>
        if a.wikidata_id == u.1 then applyHumanUpdate t places u.2.1 u.2.2 a else a)
      (us.foldl (fun a u =>
        if a.wikidata_id == u.1 then applyHumanUpdate t places u.2.1 u.2.2 a else a) a) =
    us.foldl (fun a u =>
        if a.wikidata_id == u.1 then applyHumanUpdate t places u.2.1 u.2.2 a else a) a := by
  rcases humanChain_congr t places us
      (us.foldl (fun a u =>
        if a.wikidata_id == u.1 then applyHumanUpdate t places u.2.1 u.2.2 a else a) a) a
      (humanChain_pk t places us a) with h | h
  · exact h
  · exact h.1

theorem humanFold_pk_map (t : Int) (places : List PlaceRow)
    (us : List (String × HumanData × HumanCore)) (tbl : List HumanRow) :
    (us.foldl (fun tbl u => tbl.map (fun h =>
        if h.wikidata_id == u.1 then applyHumanUpdate t places u.2.1 u.2.2 h else h))
      tbl).map (fun h => h.wikidata_id) = tbl.map (fun h => h.wikidata_id) := by
  rw [foldl_map_maps (fun u (h : HumanRow) =>
    if h.wikidata_id == u.1 then applyHumanUpdate t places u.2.1 u.2.2 h else h) us tbl]
  rw [List.map_map]
  refine List.map_congr_left ?_
  intro a _
  exact humanChain_pk t places us a

theorem humanFold_idem (t : Int) (places : List PlaceRow)
    (us : List (String × HumanData × HumanCore)) (tbl : List HumanRow) :
    us.foldl (fun tbl u => tbl.map (fun h =>
        if h.wikidata_id == u.1 then applyHumanUpdate t places u.2.1 u.2.2 h else h))
      (us.foldl (fun tbl u => tbl.map (fun h =>
        if h.wikidata_id == u.1 then applyHumanUpdate t places u.2.1 u.2.2 h else h)) tbl) =
    us.foldl (fun tbl u => tbl.map (fun h =>
        if h.wikidata_id == u.1 then applyHumanUpdate t places u.2.1 u.2.2 h else h))
      tbl := by
  rw [foldl_map_maps (fun u (h : HumanRow) =>
      if h.wikidata_id == u.1 then applyHumanUpdate t places u.2.1 u.2.2 h else h) us tbl,
    foldl_map_maps (fun u (h : HumanRow) =>
      if h.wikidata_id == u.1 then applyHumanUpdate t places u.2.1 u.2.2 h else h) us,
    List.map_map]
  refine List.map_congr_left ?_
  intro a _
  exact humanChain_idem t places us a

theorem any_pk_humans {l1 l2 : List HumanRow}
    (h : l1.map (fun x => x.wikidata_id) = l2.map (fun x => x.wikidata_id))
    (q : String → Bool) :
    l1.any (fun x => q x.wikidata_id) = l2.any (fun x => q x.wikidata_id) := by
  have key : ∀ l : List HumanRow, l.any (fun x => q x.wikidata_id) =
      (l.map (fun x => x.wikidata_id)).any q := by
    intro l
    induction l with
    | nil => rfl
    | cons a l ih => simp [List.any_cons, ih]
  rw [key l1, key l2, h]

theorem foldl_bulkInsert_append {α β : Type} (clash : α → α → Bool)
    (items : β → List α) :
    ∀ (us : List β) (aa : List α),
    ∃ extra, us.foldl (fun aa u => bulkInsert clash aa (items u)) aa = aa ++ extra := by
  intro us
  induction us with
  | nil => intro aa; exact ⟨[], by simp⟩
  | cons u rest ih =>
    intro aa
    rw [List.foldl_cons]
    obtain ⟨e1, he1⟩ := bulkInsert_append clash (items u) aa
    obtain ⟨e2, he2⟩ := ih (bulkInsert clash aa (items u))
    exact ⟨e1 ++ e2, by rw [he2, he1, List.append_assoc]⟩

theorem foldl_bulkInsert_all_present {α β : Type} (clash : α → α → Bool)
    (hrefl : ∀ x, clash x x = true) (items : β → List α) :
    ∀ (us : List β) (aa : List α), ∀ u ∈ us, ∀ x ∈ items u,
    (us.foldl (fun aa u => bulkInsert clash aa (items u)) aa).any (clash x) = true := by
  intro us
  induction us with
  | nil => intro aa u hu; simp at hu
  | cons v rest ih =>
    intro aa u hu x hx
    rw [List.foldl_cons]
    rcases List.mem_cons.mp hu with h1 | h1
    · subst h1
      obtain ⟨e, he⟩ := foldl_bulkInsert_append clash items rest
        (bulkInsert clash aa (items u))
      rw [he, List.any_append, any_bulkInsert_self clash hrefl (items u) aa x hx,
        Bool.true_or]
    · exact ih (bulkInsert clash aa (items v)) u h1 x hx

theorem foldl_bulkInsert_eq_self {α β : Type} (clash : α → α → Bool)
    (items : β → List α) :
    ∀ (us : List β) (aa : List α), (∀ u ∈ us, ∀ x ∈ items u, aa.any (clash x) = true) →
    us.foldl (fun aa u => bulkInsert clash aa (items u)) aa = aa := by
  intro us
  induction us with
  | nil => intro aa _; rfl
  | cons u rest ih =>
    intro aa h
    rw [List.foldl_cons,
      bulkInsert_eq_self clash (items u) aa (h u (List.mem_cons_self u rest))]
    exact ih aa (fun v hv x hx => h v (List.mem_cons_of_mem u hv) x hx)

theorem nodup_foldl_bulkInsert {α β κ : Type} (pk : α → κ) (clash : α → α → Bool)
    (hdet : ∀ x y, pk x = pk y → clash x y = true) (items : β → List α) :
    ∀ (us : List β) (aa : List α), (aa.map pk).Nodup →
    ((us.foldl (fun aa u => bulkInsert clash aa (items u)) aa).map pk).Nodup := by
  intro us
  induction us with
  | nil => intro aa h; exact h
  | cons u rest ih =>
    intro aa h
    rw [List.foldl_cons]
    exact ih (bulkInsert clash aa (items u)) (nodup_bulkInsert pk clash hdet (items u) aa h)

/-! Named forms of the `let`-chain of `bulkWrite` (tasks.py 335-429), for
stating what a second run of the transaction body computes. -/

def bwPlaces (t : Int) (ps : PassState) : List PlaceRow :=
  bulkInsert placeClash ps.store.places (ps.places_to_create.map (fun p => p.2))

def bwAttrs (t : Int) (ps : PassState) : List AttrRow :=
  bulkInsert attrClash ps.store.attributes (ps.attributes_to_create.map (fun p => p.2))

def bwNewHumans (t : Int) (ps : PassState) : List HumanRow :=
  ps.humans_to_create.filterMap (fun p =>
    p.2.core.map (fun c => buildHumanRow t (bwPlaces t ps) p.1 p.2 c))

def bwHumans1 (t : Int) (ps : PassState) : List HumanRow :=
  bulkInsert humanClash ps.store.humans (bwNewHumans t ps)

def bwRelations (t : Int) (ps : PassState) : List (String × String) :=
  (ps.humans_to_create.map (fun p =>
    if (bwHumans1 t ps).any (fun h => h.wikidata_id == p.1) then
      p.2.attributes.filterMap (fun aid =>
        if (bwAttrs t ps).any (fun a => a.wikidata_id == aid) then some (p.1, aid)
        else none)
    else [])).flatten

def bwAssocs1 (t : Int) (ps : PassState) : List (String × String) :=
  bulkInsert assocClash ps.store.assocs (bwRelations t ps)

def bwUpdates (ps : PassState) : List (String × HumanData × HumanCore) :=
  ps.humans_to_update.filterMap (fun p => p.2.core.map (fun c => (p.1, p.2, c)))

def bwHumans2 (t : Int) (ps : PassState) : List HumanRow :=
  (bwUpdates ps).foldl (fun tbl u =>
    tbl.map (fun h =>
      if h.wikidata_id == u.1 then applyHumanUpdate t (bwPlaces t ps) u.2.1 u.2.2 h
      else h)) (bwHumans1 t ps)

def bwAssocs2 (t : Int) (ps : PassState) : List (String × String) :=
  (bwUpdates ps).foldl (fun aa u =>
    bulkInsert assocClash aa (u.2.1.attributes.filterMap (fun aid =>
      if (bwAttrs t ps).any (fun a => a.wikidata_id == aid) then some (u.1, aid)
      else none))) (bwAssocs1 t ps)

theorem bulkWrite_eq (t : Int) (ps : PassState)
    (hc : ps.humans_to_create.all (fun p => p.2.core.isSome) = true)
    (hu : ps.humans_to_update.all (fun p => p.2.core.isSome) = true) :
    bulkWrite t ps =
      .ok ⟨bwHumans2 t ps, bwPlaces t ps, bwAttrs t ps, bwAssocs2 t ps⟩ := by
  simp only [bulkWrite, bwHumans2, bwUpdates, bwHumans1, bwNewHumans, bwPlaces,
    bwAttrs, bwAssocs2, bwAssocs1, bwRelations]
  rw [if_pos hc, if_pos hu]

theorem placeClash_refl (x : PlaceRow) : placeClash x x = true := by
  simp [placeClash]

theorem attrClash_refl (x : AttrRow) : attrClash x x = true := by
  simp [attrClash]

theorem humanClash_refl (x : HumanRow) : humanClash x x = true := by
  simp [humanClash]

theorem assocClash_refl (x : String × String) : assocClash x x = true := by
  simp [assocClash]

theorem placeClash_det (x y : PlaceRow) (h : x.wikidata_id = y.wikidata_id) :
    placeClash x y = true := by
  simp [placeClash, h]

theorem attrClash_det (x y : AttrRow) (h : x.wikidata_id = y.wikidata_id) :
    attrClash x y = true := by
  simp [attrClash, h]

theorem humanClash_det (x y : HumanRow) (h : x.wikidata_id = y.wikidata_id) :
    humanClash x y = true := by
  simp [humanClash, h]

theorem assocClash_det (x y : String × String) (h : x = y) :
    assocClash x y = true := by
  simp [assocClash, h]

theorem any_pkeq_humans {l1 l2 : List HumanRow}
    (h : l1.map (fun x => x.wikidata_id) = l2.map (fun x => x.wikidata_id))
    (w : String) :
    l1.any (fun x => x.wikidata_id == w) = l2.any (fun x => x.wikidata_id == w) :=
  any_pk_humans h (fun q => q == w)

/-- The pass state a second transaction run would start from: same parsed
dicts, store as committed by the first run. -/
def bwNext (t : Int) (ps : PassState) : PassState :=
  { ps with store := ⟨bwHumans2 t ps, bwPlaces t ps, bwAttrs t ps, bwAssocs2 t ps⟩ }

theorem bwPlaces_next (t : Int) (ps : PassState) :
    bwPlaces t (bwNext t ps) = bwPlaces t ps := by
  show bulkInsert placeClash (bwPlaces t ps) (ps.places_to_create.map (fun p => p.2)) =
    bwPlaces t ps
  refine bulkInsert_eq_self placeClash _ _ ?_
  intro x hx
  exact any_bulkInsert_self placeClash placeClash_refl _ ps.store.places x hx

theorem bwAttrs_next (t : Int) (ps : PassState) :
    bwAttrs t (bwNext t ps) = bwAttrs t ps := by
  show bulkInsert attrClash (bwAttrs t ps) (ps.attributes_to_create.map (fun p => p.2)) =
    bwAttrs t ps
  refine bulkInsert_eq_self attrClash _ _ ?_
  intro x hx
  exact any_bulkInsert_self attrClash attrClash_refl _ ps.store.attributes x hx

theorem bwNewHumans_next (t : Int) (ps : PassState) :
    bwNewHumans t (bwNext t ps) = bwNewHumans t ps := by
  show ps.humans_to_create.filterMap (fun p =>
      p.2.core.map (fun c => buildHumanRow t (bwPlaces t (bwNext t ps)) p.1 p.2 c)) =
    bwNewHumans t ps
  rw [bwPlaces_next]
  rfl

theorem bwHumans2_pk_map (t : Int) (ps : PassState) :
    (bwHumans2 t ps).map (fun h => h.wikidata_id) =
      (bwHumans1 t ps).map (fun h => h.wikidata_id) :=
  humanFold_pk_map t (bwPlaces t ps) (bwUpdates ps) (bwHumans1 t ps)

theorem bwHumans1_next (t : Int) (ps : PassState) :
    bwHumans1 t (bwNext t ps) = bwHumans2 t ps := by
  show bulkInsert humanClash (bwHumans2 t ps) (bwNewHumans t (bwNext t ps)) =
    bwHumans2 t ps
  rw [bwNewHumans_next]
  refine bulkInsert_eq_self humanClash _ _ ?_
  intro x hx
  show (bwHumans2 t ps).any (fun y => x.wikidata_id == y.wikidata_id) = true
  have h1 : (bwHumans2 t ps).any (fun y => x.wikidata_id == y.wikidata_id) =
      (bwHumans1 t ps).any (fun y => x.wikidata_id == y.wikidata_id) :=
    any_pk_humans (bwHumans2_pk_map t ps) (fun w => x.wikidata_id == w)
  rw [h1]
  exact any_bulkInsert_self humanClash humanClash_refl (bwNewHumans t ps)
    ps.store.humans x hx

theorem bwRelations_next (t : Int) (ps : PassState) :
    bwRelations t (bwNext t ps) = bwRelations t ps := by
  show (ps.humans_to_create.map (fun p =>
      if (bwHumans1 t (bwNext t ps)).any (fun h => h.wikidata_id == p.1) then
        p.2.attributes.filterMap (fun aid =>
          if (bwAttrs t (bwNext t ps)).any (fun a => a.wikidata_id == aid) then
            some (p.1, aid)
          else none)
      else [])).flatten = bwRelations t ps
  rw [bwHumans1_next, bwAttrs_next]
  unfold bwRelations
  congr 1
  refine List.map_congr_left ?_
  intro p _
  rw [any_pkeq_humans (bwHumans2_pk_map t ps) p.1]

theorem bwAssocs1_next (t : Int) (ps : PassState) :
    bwAssocs1 t (bwNext t ps) = bwAssocs2 t ps := by
  show bulkInsert assocClash (bwAssocs2 t ps) (bwRelations t (bwNext t ps)) =
    bwAssocs2 t ps
  rw [bwRelations_next]
  refine bulkInsert_eq_self assocClash _ _ ?_
  intro x hx
  obtain ⟨e, he⟩ := foldl_bulkInsert_append assocClash
    (fun (u : String × HumanData × HumanCore) => u.2.1.attributes.filterMap (fun aid =>
      if (bwAttrs t ps).any (fun a => a.wikidata_id == aid) then some (u.1, aid)
      else none))
    (bwUpdates ps) (bwAssocs1 t ps)
  have he2 : bwAssocs2 t ps = bwAssocs1 t ps ++ e := he
  have ha : (bwAssocs1 t ps).any (assocClash x) = true :=
    any_bulkInsert_self assocClash assocClash_refl (bwRelations t ps)
      ps.store.assocs x hx
  rw [he2, List.any_append, ha, Bool.true_or]

theorem bwHumans2_next (t : Int) (ps : PassState) :
    bwHumans2 t (bwNext t ps) = bwHumans2 t ps := by
  show (bwUpdates ps).foldl (fun tbl u =>
      tbl.map (fun h =>
        if h.wikidata_id == u.1 then
          applyHumanUpdate t (bwPlaces t (bwNext t ps)) u.2.1 u.2.2 h
        else h)) (bwHumans1 t (bwNext t ps)) = bwHumans2 t ps
  rw [bwPlaces_next, bwHumans1_next]
  exact humanFold_idem t (bwPlaces t ps) (bwUpdates ps) (bwHumans1 t ps)

theorem bwAssocs2_next (t : Int) (ps : PassState) :
    bwAssocs2 t (bwNext t ps) = bwAssocs2 t ps := by
  show (bwUpdates ps).foldl (fun aa u =>
      bulkInsert assocClash aa (u.2.1.attributes.filterMap (fun aid =>
        if (bwAttrs t (bwNext t ps)).any (fun a => a.wikidata_id == aid) then
          some (u.1, aid)
        else none))) (bwAssocs1 t (bwNext t ps)) = bwAssocs2 t ps
  rw [bwAttrs_next, bwAssocs1_next]
  refine foldl_bulkInsert_eq_self assocClash _ (bwUpdates ps) (bwAssocs2 t ps) ?_
  intro u hu x hx
  exact foldl_bulkInsert_all_present assocClash assocClash_refl _
    (bwUpdates ps) (bwAssocs1 t ps) u hu x hx

/-- **C3.**  Idempotence of the reconciliation bulk-write phase: if the
transaction body committed `s2` from pass state `ps`, running it again over
the same parsed fact set (same dicts, store now `s2`) commits `s2`
unchanged; and the phase never introduces duplicate rows: uniqueness of
human, place and attribute wikidata ids and of `(person, attribute)`
association pairs is preserved from the pre-transaction store. -/
theorem C3_bulk_write_idempotent (t : Int) (ps : PassState) (s2 : Store)
    (hb : bulkWrite t ps = .ok s2) :
    bulkWrite t { ps with store := s2 } = .ok s2 ∧
    ((ps.store.humans.map (fun h => h.wikidata_id)).Nodup →
      (s2.humans.map (fun h => h.wikidata_id)).Nodup) ∧
    ((ps.store.places.map (fun p => p.wikidata_id)).Nodup →
      (s2.places.map (fun p => p.wikidata_id)).Nodup) ∧
    ((ps.store.attributes.map (fun a => a.wikidata_id)).Nodup →
      (s2.attributes.map (fun a => a.wikidata_id)).Nodup) ∧
    (ps.store.assocs.Nodup → s2.assocs.Nodup) := by
  have hc : ps.humans_to_create.all (fun p => p.2.core.isSome) = true := by
    by_contra hcn
    simp only [bulkWrite] at hb
    rw [if_neg hcn] at hb
    simp at hb
  have hu : ps.humans_to_update.all (fun p => p.2.core.isSome) = true := by
    by_contra hun
    simp only [bulkWrite] at hb
    rw [if_pos hc, if_neg hun] at hb
    simp at hb
  have hs2 : s2 = ⟨bwHumans2 t ps, bwPlaces t ps, bwAttrs t ps, bwAssocs2 t ps⟩ := by
    rw [bulkWrite_eq t ps hc hu] at hb
    exact (Except.ok.inj hb).symm
  subst hs2
  refine ⟨?_, ?_, ?_, ?_, ?_⟩
  · have hrun2 := bulkWrite_eq t (bwNext t ps) hc hu
    rw [bwHumans2_next, bwPlaces_next, bwAttrs_next, bwAssocs2_next] at hrun2
    exact hrun2
  · intro h
    show ((bwHumans2 t ps).map (fun x => x.wikidata_id)).Nodup
    rw [bwHumans2_pk_map]
    exact nodup_bulkInsert (fun (x : HumanRow) => x.wikidata_id) humanClash
      humanClash_det (bwNewHumans t ps) ps.store.humans h
  · intro h
    exact nodup_bulkInsert (fun (x : PlaceRow) => x.wikidata_id) placeClash
      placeClash_det (ps.places_to_create.map (fun p => p.2)) ps.store.places h
  · intro h
    exact nodup_bulkInsert (fun (x : AttrRow) => x.wikidata_id) attrClash
      attrClash_det (ps.attributes_to_create.map (fun p => p.2)) ps.store.attributes h
  · intro h
    have h0 : (ps.store.assocs.map (fun x => x)).Nodup := by
      rw [List.map_id']
      exact h
    have h1 := nodup_bulkInsert (fun (x : String × String) => x) assocClash
      assocClash_det (bwRelations t ps) ps.store.assocs h0
    have h2 := nodup_foldl_bulkInsert (fun (x : String × String) => x) assocClash
      assocClash_det
      (fun (u : String × HumanData × HumanCore) => u.2.1.attributes.filterMap (fun aid =>
        if (bwAttrs t ps).any (fun a => a.wikidata_id == aid) then some (u.1, aid)
        else none))
      (bwUpdates ps) (bwAssocs1 t ps) h1
    rw [List.map_id'] at h2
    exact h2

def c3w_ps : PassState :=
  ⟨⟨[], [], [], []⟩,
   [("Q2", ⟨"N", some ⟨"", none, false, none, false, some "P1", none⟩, ["A1", "A1"]⟩)],
   [],
   [("P1", ⟨"P1", some "X", none, none, 10000⟩)],
   [("A1", ⟨"A1", "L", "gender", 10000⟩)]⟩

def c3w_s2 : Store :=
  ⟨[⟨"Q2", "N", "", none, false, none, false, some "P1", none, 10000⟩],
   [⟨"P1", some "X", none, none, 10000⟩],
   [⟨"A1", "L", "gender", 10000⟩],
   [("Q2", "A1")]⟩

theorem C3_bulk_write_idempotent_witness :
    bulkWrite 10000 { c3w_ps with store := c3w_s2 } = .ok c3w_s2 ∧
    c3w_s2.assocs.Nodup :=
  ⟨(C3_bulk_write_idempotent 10000 c3w_ps c3w_s2 rfl).1,
   (C3_bulk_write_idempotent 10000 c3w_ps c3w_s2 rfl).2.2.2.2 (by decide)⟩

end NotableHumans
